import Mathlib

/-!
# EventReminder: the event store of `main.cpp`

A shallow embedding of `Date`, `Time`, `Event` and `EventManager` from
`src/Event reminder project/main.cpp`, followed by theorems about the
operations of the store.

Modelling conventions
* C++ `int` fields are `Int`. The program only compares them with each other
  and with constants and never does arithmetic on them, so no overflow can occur
  there. The one place where a number is converted into an `int`, the `sscanf`
  of `editEvent`, stores the 32-bit value explicitly (`storeInt`).
* `std::string` is `String`; `s.empty()` is `s = ""`, `a == b` is string equality.
* `std::vector<Event>` is `List Event`; `emplace_back` appends at the end.
* The console is modelled by its two directions. What an operation reads from
  `std::cin` is an argument, already split into the values or lines the
  operation reads. What it writes to `std::cout` is a `List Out`, one item per
  output statement, in program order.
-/

namespace EventReminder

/-! ## Temporal value types -/

/-- The struct `Date` (main.cpp 8-35). -/
structure Date where
  day : Int
  month : Int
  year : Int
deriving DecidableEq, Repr

/-- Default constructor `Date() : day(1), month(1), year(2000)`. -/
def Date.default : Date := { day := 1, month := 1, year := 2000 }

/-- The member `Date::operator<` (main.cpp 20-24). -/
def Date.lt (a other : Date) : Bool :=
  if a.year ≠ other.year then decide (a.year < other.year)
  else if a.month ≠ other.month then decide (a.month < other.month)
  else decide (a.day < other.day)

/-- The member `Date::operator==` (main.cpp 26-28). -/
def Date.eq (a other : Date) : Bool :=
  decide (a.day = other.day) && decide (a.month = other.month) && decide (a.year = other.year)

/-- The function `std::to_string(int)`: decimal digits, with a leading `-` for a negative value. -/
def to_string (n : Int) : String := toString n

/-- The member `Date::toString` (main.cpp 30-34). -/
def Date.toString (a : Date) : String :=
  to_string a.day ++ "/" ++ to_string a.month ++ "/" ++ to_string a.year

/-- The struct `Time` (main.cpp 37-64). -/
structure Time where
  hour : Int
  minute : Int
deriving DecidableEq, Repr

/-- Default constructor `Time() : hour(0), minute(0)`. -/
def Time.default : Time := { hour := 0, minute := 0 }

/-- The member `Time::operator<` (main.cpp 48-51). -/
def Time.lt (a other : Time) : Bool :=
  if a.hour ≠ other.hour then decide (a.hour < other.hour)
  else decide (a.minute < other.minute)

/-- The member `Time::operator==` (main.cpp 53-55). -/
def Time.eq (a other : Time) : Bool :=
  decide (a.hour = other.hour) && decide (a.minute = other.minute)

/-- The member `Time::toString` (main.cpp 57-63): a one-character rendering gets a `0` in front. -/
def Time.toString (a : Time) : String :=
  let h_str := to_string a.hour
  let m_str := to_string a.minute
  let h_str := if h_str.length = 1 then "0" ++ h_str else h_str
  let m_str := if m_str.length = 1 then "0" ++ m_str else m_str
  h_str ++ ":" ++ m_str

/-! ## Events -/

/-- The class `Event` (main.cpp 67-91). -/
structure Event where
  name : String
  date : Date
  time : Time
  description : String
deriving DecidableEq, Repr

/-- The member `Event::operator<` (main.cpp 78-81). -/
def Event.lt (a other : Event) : Bool :=
  if !(Date.eq a.date other.date) then Date.lt a.date other.date
  else Time.lt a.time other.time

/-- One output statement of the program: a line of text, or one call of
`Event::display`. -/
inductive Out where
  | text (s : String)
  | display (e : Event)
deriving DecidableEq, Repr

/-- The characters `Event::display` writes (main.cpp 83-90). -/
def Event.displayText (e : Event) : String :=
  "--------------------------------------\n"
    ++ "Event Name:  " ++ e.name ++ "\n"
    ++ "Date:        " ++ e.date.toString ++ "\n"
    ++ "Time:        " ++ e.time.toString ++ "\n"
    ++ "Description: " ++ e.description ++ "\n"
    ++ "--------------------------------------\n"

/-- The characters of one output item. -/
def Out.render : Out → String
  | Out.text s => s
  | Out.display e => e.displayText

/-- The events rendered by an output, in the order they were rendered. -/
def displayed : List Out → List Event
  | [] => []
  | Out.text _ :: rest => displayed rest
  | Out.display e :: rest => e :: displayed rest

/-! ## The store -/

/-- The class `EventManager` (main.cpp 94-307): the vector of events. -/
structure EventManager where
  events : List Event
deriving DecidableEq, Repr

/-- The store of a freshly constructed `EventManager`. -/
def EventManager.empty : EventManager := { events := [] }

/-- The date components accepted by `addEvent` and `editEvent`
(main.cpp 112 and 214). -/
def dateInRange (d m y : Int) : Bool :=
  decide (1 ≤ d) && decide (d ≤ 31) && decide (1 ≤ m) && decide (m ≤ 12)
    && decide (1900 ≤ y) && decide (y ≤ 2100)

/-- The time components accepted by `addEvent` and `editEvent`
(main.cpp 121 and 229). -/
def timeInRange (h min : Int) : Bool :=
  decide (0 ≤ h) && decide (h ≤ 23) && decide (0 ≤ min) && decide (min ≤ 59)

/-- What `addEvent` reads: the name line, `d m y`, `h min`, the description line. -/
structure AddInput where
  name : String
  d : Int
  m : Int
  y : Int
  h : Int
  min : Int
  description : String
deriving DecidableEq, Repr

/-- The date `addEvent` builds (main.cpp 112-116): the condition of the source
is kept as written. -/
def addDate (d m y : Int) : Date × List Out :=
  if d < 1 ∨ d > 31 ∨ m < 1 ∨ m > 12 ∨ y < 1900 ∨ y > 2100 then
    ({ day := 1, month := 1, year := 2000 },
     [Out.text "Invalid date. Using default (1/1/2000).\n"])
  else
    ({ day := d, month := m, year := y }, [])

/-- The time `addEvent` builds (main.cpp 121-125). -/
def addTime (h min : Int) : Time × List Out :=
  if h < 0 ∨ h > 23 ∨ min < 0 ∨ min > 59 then
    ({ hour := 0, minute := 0 }, [Out.text "Invalid time. Using default (00:00).\n"])
  else
    ({ hour := h, minute := min }, [])

/-- The member `EventManager::addEvent` (main.cpp 100-133). -/
def addEvent (mgr : EventManager) (i : AddInput) : EventManager × List Out :=
  let date := addDate i.d i.m i.y
  let time := addTime i.h i.min
  ({ events := mgr.events ++ [{ name := i.name, date := date.1, time := time.1,
                                description := i.description }] },
   [Out.text "\n--- Add New Event ---\n", Out.text "Enter Event Name: ",
    Out.text "Enter Date (DD MM YYYY): "] ++ date.2
    ++ [Out.text "Enter Time (HH MM - 24hr format): "] ++ time.2
    ++ [Out.text "Enter Description: ",
        Out.text ("Event '" ++ i.name ++ "' added successfully!\n")])

/-- The store after a sequence of adds, first input first. -/
def addAll (mgr : EventManager) : List AddInput → EventManager
  | [] => mgr
  | i :: rest => addAll (addEvent mgr i).1 rest

/-- One insertion step of the sort: `x` goes in front of the first element it
is less than. -/
def sortInsert (x : Event) : List Event → List Event
  | [] => [x]
  | y :: ys => if x.lt y then x :: y :: ys else y :: sortInsert x ys

/-- The call `std::sort(events.begin(), events.end())` with `Event::operator<`. The
standard leaves the algorithm open and promises no order among equivalent
elements; the model is an insertion sort that, like the library routine,
consults the events only through `operator<`. -/
def stdSort : List Event → List Event
  | [] => []
  | x :: xs => sortInsert x (stdSort xs)

/-- The member `EventManager::viewEvents` (main.cpp 136-149). -/
def viewEvents (mgr : EventManager) : EventManager × List Out :=
  if mgr.events.isEmpty then
    (mgr, [Out.text "\nNo events to display.\n"])
  else
    let sorted := stdSort mgr.events
    ({ events := sorted }, Out.text "\n--- All Events ---\n" :: sorted.map Out.display)

/-- The erase-remove idiom of `deleteEvent` (main.cpp 269-271):
`std::remove_if` keeps, in their order, the elements the predicate rejects, and
`erase` cuts off the rest of the vector. -/
def removeIf (pred : Event → Bool) : List Event → List Event
  | [] => []
  | e :: rest => if pred e then removeIf pred rest else e :: removeIf pred rest

/-- The member `EventManager::deleteEvent` (main.cpp 255-278). -/
def deleteEvent (mgr : EventManager) (eventName : String) : EventManager × List Out :=
  if mgr.events.isEmpty then
    (mgr, [Out.text "\nNo events to delete.\n"])
  else
    let originalSize := mgr.events.length
    let events := removeIf (fun e => decide (e.name = eventName)) mgr.events
    ({ events := events },
     [Out.text "\n--- Delete Event ---\n",
      Out.text "Enter the NAME of the event to delete: ",
      if events.length < originalSize then
        Out.text ("Event '" ++ eventName ++ "' deleted successfully!\n")
      else
        Out.text ("Event with name '" ++ eventName ++ "' not found.\n")])

/-! ### `sscanf` on the date and time lines of `editEvent` -/

/-- The function `isspace` in the C locale: space, `\t`, `\n`, `\v`, `\f`, `\r`. -/
def isspace (c : Char) : Bool :=
  c = ' ' ∨ c = '\t' ∨ c = '\n' ∨ c = '\x0b' ∨ c = '\x0c' ∨ c = '\r'

/-- The result of `std::string::c_str` as `sscanf` sees it: the characters before the first NUL. -/
def c_str (s : String) : List Char := s.toList.takeWhile (fun c => c ≠ '\x00')

/-- Skip the white space in front of a conversion. -/
def skipSpace : List Char → List Char
  | [] => []
  | c :: cs => if isspace c then skipSpace cs else c :: cs

/-- Read the longest run of decimal digits, accumulating its value. -/
def scanDigits (acc : Nat) : List Char → Nat × List Char
  | [] => (acc, [])
  | c :: cs =>
    if c.isDigit then scanDigits (acc * 10 + (c.toNat - 48)) cs else (acc, c :: cs)

/-- The conversion of the digits by `strtol`, which the C library uses for `%d`:
a value outside the range of the 64-bit `long` becomes `LONG_MAX` or `LONG_MIN`. -/
def clampLong (v : Int) : Int :=
  if v > 9223372036854775807 then 9223372036854775807
  else if v < -9223372036854775808 then -9223372036854775808
  else v

/-- The store of a `long` into the 32-bit `int` behind the `%d` argument: the low
32 bits are kept and read in two's complement, so 4294967297 is stored as 1. -/
def toInt32 (v : Int) : Int := (v + 2147483648) % 4294967296 - 2147483648

/-- The `int` that a `%d` conversion stores for the number written in the input. -/
def storeInt (v : Int) : Int := toInt32 (clampLong v)

/-- One `%d` conversion: white space is skipped, then an optional sign and at
least one digit are read. The result is the `int` stored and the unread rest,
or `none` on a matching failure. A number that fits an `int` is stored as it
is; a longer digit string is stored the way the C library of the platform does
it, clamped to `long` and cut to 32 bits (`storeInt`). -/
def scanInt (s : List Char) : Option (Int × List Char) :=
  match skipSpace s with
  | [] => none
  | c :: cs =>
    if c = '-' then
      match cs with
      | [] => none
      | c2 :: _ =>
        if c2.isDigit then
          let r := scanDigits 0 cs
          some (storeInt (-(r.1 : Int)), r.2)
        else none
    else if c = '+' then
      match cs with
      | [] => none
      | c2 :: _ =>
        if c2.isDigit then
          let r := scanDigits 0 cs
          some (storeInt (r.1 : Int), r.2)
        else none
    else if c.isDigit then
      let r := scanDigits 0 (c :: cs)
      some (storeInt (r.1 : Int), r.2)
    else none

/-- The call `sscanf(s, "%d %d ... %d", ...)` with `n` conversions: the values stored by
the conversions that succeed, in order. Scanning stops at the first conversion
that fails; what follows the last conversion is not looked at. The white space
of the format matches any amount of white space, none included, which the next
`%d` skips anyway. The value `sscanf` returns is the length of this list (or
`EOF` when the list is empty and the input ran out), so `sscanf(...) == n`
holds exactly when the list has `n` entries. -/
def sscanfInts : Nat → List Char → List Int
  | 0, _ => []
  | n + 1, s =>
    match scanInt s with
    | none => []
    | some (v, rest) => v :: sscanfInts n rest

/-- What `editEvent` reads once it has found the event: four lines. -/
structure EditInput where
  newName : String
  date_input_str : String
  time_input_str : String
  newDescription : String
deriving DecidableEq, Repr

/-- The date step of `editEvent` (main.cpp 211-222). -/
def editDate (event : Event) (date_input_str : String) : Event × List Out :=
  if date_input_str ≠ "" then
    match sscanfInts 3 (c_str date_input_str) with
    | [d, m, y] =>
      if d ≥ 1 ∧ d ≤ 31 ∧ m ≥ 1 ∧ m ≤ 12 ∧ y ≥ 1900 ∧ y ≤ 2100 then
        ({ event with date := { day := d, month := m, year := y } }, [])
      else
        (event, [Out.text "Invalid date format or range. Date not updated.\n"])
    | _ => (event, [Out.text "Invalid date format. Date not updated.\n"])
  else (event, [])

/-- The time step of `editEvent` (main.cpp 227-237). -/
def editTime (event : Event) (time_input_str : String) : Event × List Out :=
  if time_input_str ≠ "" then
    match sscanfInts 2 (c_str time_input_str) with
    | [h, min] =>
      if h ≥ 0 ∧ h ≤ 23 ∧ min ≥ 0 ∧ min ≤ 59 then
        ({ event with time := { hour := h, minute := min } }, [])
      else
        (event, [Out.text "Invalid time format or range. Time not updated.\n"])
    | _ => (event, [Out.text "Invalid time format. Time not updated.\n"])
  else (event, [])

/-- The body of the loop of `editEvent` for the event that matches
(main.cpp 199-245): the four fields are handled one after the other. -/
def editFound (event : Event) (i : EditInput) : Event × List Out :=
  let e1 : Event := if i.newName ≠ "" then { event with name := i.newName } else event
  let r2 := editDate e1 i.date_input_str
  let r3 := editTime r2.1 i.time_input_str
  let e4 : Event :=
    if i.newDescription ≠ "" then { r3.1 with description := i.newDescription } else r3.1
  (e4,
   [Out.text "Event found! Enter new details (leave blank to keep current):\n",
    Out.text ("Current Name: " ++ event.name ++ "\n"), Out.text "New Event Name: ",
    Out.text ("Current Date: " ++ e1.date.toString ++ "\n"),
    Out.text "New Date (DD MM YYYY): "] ++ r2.2
    ++ [Out.text ("Current Time: " ++ r2.1.time.toString ++ "\n"),
        Out.text "New Time (HH MM): "] ++ r3.2
    ++ [Out.text ("Current Description: " ++ r3.1.description ++ "\n"),
        Out.text "New Description: ",
        Out.text ("Event '" ++ e4.name ++ "' updated successfully!\n")])

/-- The loop of `editEvent` (main.cpp 197-248): the first event whose name is
`eventName` is edited and the loop is left; `none` when the loop ends with
`found == false`. -/
def editLoop (eventName : String) (i : EditInput) : List Event → Option (List Event × List Out)
  | [] => none
  | event :: rest =>
    if event.name = eventName then
      let r := editFound event i
      some (r.1 :: rest, r.2)
    else
      match editLoop eventName i rest with
      | none => none
      | some r => some (event :: r.1, r.2)

/-- The member `EventManager::editEvent` (main.cpp 184-252). The lines of `i` are read
only when an event is found. -/
def editEvent (mgr : EventManager) (eventName : String) (i : EditInput) :
    EventManager × List Out :=
  if mgr.events.isEmpty then
    (mgr, [Out.text "\nNo events to edit.\n"])
  else
    match editLoop eventName i mgr.events with
    | some r =>
      ({ events := r.1 },
       [Out.text "\n--- Edit Event ---\n", Out.text "Enter the NAME of the event to edit: "]
         ++ r.2)
    | none =>
      (mgr,
       [Out.text "\n--- Edit Event ---\n", Out.text "Enter the NAME of the event to edit: ",
        Out.text ("Event with name '" ++ eventName ++ "' not found.\n")])

/-! ### Searching -/

/-- Whether `query` stands at the very beginning of `s`, character by character. -/
def startsWith (query : List Char) (s : List Char) : Bool :=
  match query, s with
  | [], _ => true
  | _ :: _, [] => false
  | a :: rest, b :: s2 => decide (a = b) && startsWith rest s2

/-- The search of `std::string::find` from position `pos` on, where `s` is what
is left of the string from there: the first position at which `query` stands. -/
def findFrom (query : List Char) : List Char → Nat → Option Nat
  | [], pos => if startsWith query [] then some pos else none
  | c :: cs, pos =>
    if startsWith query (c :: cs) then some pos else findFrom query cs (pos + 1)

/-- The call `s.find(query)` of `std::string`: the position of the first
occurrence of `query` in `s`, `none` for `std::string::npos`. The empty query
is found at position 0 of every string. -/
def find (s query : String) : Option Nat := findFrom query.data s.data 0

/-- The condition under which `searchEvent` shows an event (main.cpp 171-173). -/
def matchesQuery (event : Event) (query : String) : Bool :=
  (find event.name query).isSome || (find event.description query).isSome
    || (find event.date.toString query).isSome

/-- The loop of `searchEvent` (main.cpp 164-177): the events shown and the
final value of `found`, which enters as `found`. -/
def searchLoop (query : String) : List Event → Bool → List Out × Bool
  | [], found => ([], found)
  | event :: rest, found =>
    if matchesQuery event query then
      let r := searchLoop query rest true
      (Out.display event :: r.1, r.2)
    else searchLoop query rest found

/-- The member `EventManager::searchEvent` (main.cpp 152-181). The query is
read only when the store holds events. -/
def searchEvent (mgr : EventManager) (query : String) : EventManager × List Out :=
  if mgr.events.isEmpty then
    (mgr, [Out.text "\nNo events to search.\n"])
  else
    let r := searchLoop query mgr.events false
    (mgr,
     [Out.text "\n--- Search Event ---\n",
      Out.text "Enter keyword (event name, description, or date DD/MM/YYYY): "]
       ++ r.1
       ++ (if !r.2 then [Out.text ("No events found matching '" ++ query ++ "'.\n")] else []))

/-! ### Reminders -/

/-- The display loop of `checkReminders` (main.cpp 298-302): the events shown
and the final value of `count`, which enters as `count`. The counter is an
`int` in the source; it counts the events of the vector, whose number stays far
below the range of `int`. -/
def reminderLoop : List Event → Nat → List Out × Nat
  | [], count => ([], count)
  | event :: rest, count =>
    let r := reminderLoop rest (count + 1)
    (Out.display event :: r.1, r.2)

/-- The member `EventManager::checkReminders` (main.cpp 281-306). -/
def checkReminders (mgr : EventManager) : EventManager × List Out :=
  if mgr.events.isEmpty then
    (mgr, [Out.text "\nNo events to check for reminders.\n"])
  else
    let sorted := stdSort mgr.events
    let r := reminderLoop sorted 0
    ({ events := sorted },
     [Out.text "\n--- Upcoming Events (Sorted) ---\n"] ++ r.1
       ++ (if r.2 = 0 then
            [Out.text ("No upcoming events found "
              ++ "(this shouldn't happen if events exist after sort).\n")]
           else []))

/-! ### The menu -/

/-- One round of the menu loop of `main` (main.cpp 335-359) that reaches the
store, with what the operation reads. -/
inductive Op where
  | add (i : AddInput)
  | view
  | search (query : String)
  | edit (eventName : String) (i : EditInput)
  | delete (eventName : String)
  | remind
deriving DecidableEq, Repr

/-- The effect of one menu choice: the new store and what is printed. -/
def step (mgr : EventManager) : Op → EventManager × List Out
  | Op.add i => addEvent mgr i
  | Op.view => viewEvents mgr
  | Op.search query => searchEvent mgr query
  | Op.edit eventName i => editEvent mgr eventName i
  | Op.delete eventName => deleteEvent mgr eventName
  | Op.remind => checkReminders mgr

/-- The store after a sequence of menu choices, first choice first. -/
def run (mgr : EventManager) : List Op → EventManager
  | [] => mgr
  | op :: rest => run (step mgr op).1 rest

/-! ## Predicates used in the statements -/

/-- Sortedness: no event is less than an earlier one. -/
def Sorted (l : List Event) : Prop := l.Pairwise (fun a b => b.lt a = false)

/-- The position of the first event named `eventName`, if there is one. -/
def firstNamed (eventName : String) : List Event → Option Nat
  | [] => none
  | e :: rest =>
    if e.name = eventName then some 0
    else match firstNamed eventName rest with
      | none => none
      | some k => some (k + 1)

/-- An event named A, used to illustrate edits. -/
def exampleA : Event :=
  { name := "A", date := { day := 15, month := 3, year := 2024 },
    time := { hour := 9, minute := 30 }, description := "d" }

/-- An event named B. -/
def exampleB : Event :=
  { name := "B", date := { day := 2, month := 2, year := 2002 },
    time := { hour := 2, minute := 2 }, description := "b" }

/-- Edit lines with one integer too many on the date line and on the time line. -/
def editExtraIntegers : EditInput :=
  { newName := "", date_input_str := "1 2 2024 5", time_input_str := "10 15 45",
    newDescription := "" }

/-- Edit lines with one integer too few on the date line and on the time line. -/
def editTooFewIntegers : EditInput :=
  { newName := "New", date_input_str := "1 2", time_input_str := "9",
    newDescription := "zz" }

/-- The two adds of the scenario of the specification. -/
def scenarioStandup : AddInput :=
  { name := "Standup", d := 15, m := 3, y := 2024, h := 9, min := 30, description := "daily sync" }

/-- The second add of the scenario. -/
def scenarioRelease : AddInput :=
  { name := "Release", d := 1, m := 1, y := 2024, h := 17, min := 0, description := "ship v1" }

/-- Contiguous substring: `query` stands somewhere inside `s`, character for
character (so the comparison is case-sensitive). -/
def IsSubstring (query s : String) : Prop :=
  ∃ before after : List Char, s.data = before ++ query.data ++ after

/-- The query is a substring of the name, of the description or of the
rendered date of the event. -/
def QueryInEvent (query : String) (e : Event) : Prop :=
  IsSubstring query e.name ∨ IsSubstring query e.description
    ∨ IsSubstring query e.date.toString

/-- The range invariant of an event: day 1..31, month 1..12, year 1900..2100,
hour 0..23, minute 0..59. -/
def EventInRange (e : Event) : Prop :=
  1 ≤ e.date.day ∧ e.date.day ≤ 31 ∧ 1 ≤ e.date.month ∧ e.date.month ≤ 12
    ∧ 1900 ≤ e.date.year ∧ e.date.year ≤ 2100
    ∧ 0 ≤ e.time.hour ∧ e.time.hour ≤ 23 ∧ 0 ≤ e.time.minute ∧ e.time.minute ≤ 59

/-- The character of a decimal digit. -/
def digit (n : Nat) : Char := Char.ofNat (48 + n % 10)

/-- The two-digit, zero-padded decimal rendering of a number below 100: the
digit of the tens and the digit of the units. -/
def twoDigits (n : Int) : List Char := [digit (n.toNat / 10), digit n.toNat]

/-- The decimal numeral of a natural number, most significant digit first,
without padding: one digit below 10, otherwise the numeral of `n / 10` followed
by the digit of the units. -/
def decimal (n : Nat) : List Char :=
  if n < 10 then [digit n] else decimal (n / 10) ++ [digit n]
termination_by n
decreasing_by omega

/-- The decimal numeral of an integer: a minus sign in front of the numeral of
the absolute value when the integer is negative. -/
def decimalInt (n : Int) : String :=
  if n < 0 then String.mk ('-' :: decimal n.natAbs) else String.mk (decimal n.natAbs)

/-- A run of the menu with out-of-range input in an add and in an edit, followed
by the other operations. -/
def exampleRun : List Op :=
  [Op.add { name := "A", d := 32, m := 13, y := 1800, h := 24, min := 60, description := "d" },
   Op.add scenarioStandup,
   Op.edit "A" { newName := "", date_input_str := "31 12 2101", time_input_str := "23 59",
                 newDescription := "" },
   Op.view, Op.search "A", Op.delete "Standup", Op.remind]

/-- The store of the search examples: two events dated 1/1/2000 and 11/1/2000. -/
def searchStore : EventManager :=
  { events := [{ name := "first", date := { day := 1, month := 1, year := 2000 },
                 time := { hour := 9, minute := 0 }, description := "one" },
               { name := "second", date := { day := 11, month := 1, year := 2000 },
                 time := { hour := 10, minute := 0 }, description := "two" }] }

/-! ## Facts about the ordering -/

theorem Date.dateLt_iff (a b : Date) :
    a.lt b = true ↔ a.year < b.year ∨ (a.year = b.year ∧
      (a.month < b.month ∨ (a.month = b.month ∧ a.day < b.day))) := by
  unfold Date.lt
  split_ifs with h1 h2 <;> simp only [decide_eq_true_eq] <;> omega

theorem Date.dateEq_iff (a b : Date) : a.eq b = true ↔ a = b := by
  cases a; cases b
  simp only [Date.eq, Bool.and_eq_true, decide_eq_true_eq, Date.mk.injEq]
  tauto

theorem Time.timeLt_iff (a b : Time) :
    a.lt b = true ↔ a.hour < b.hour ∨ (a.hour = b.hour ∧ a.minute < b.minute) := by
  unfold Time.lt
  split_ifs with h1 <;> simp only [decide_eq_true_eq] <;> omega

theorem Date.dateLt_irrefl (a : Date) : a.lt a = false := by
  rw [Bool.eq_false_iff, Ne, Date.dateLt_iff]; omega

theorem Date.dateLt_asymm (a b : Date) (h : a.lt b = true) : b.lt a = false := by
  rw [Bool.eq_false_iff, Ne, Date.dateLt_iff]; rw [Date.dateLt_iff] at h; omega

theorem Date.dateLt_cotrans (a b c : Date) (h : a.lt c = true) :
    a.lt b = true ∨ b.lt c = true := by
  rw [Date.dateLt_iff] at h ⊢; rw [Date.dateLt_iff]; omega

theorem Date.dateEq_of_not_lt (a b : Date) (h1 : a.lt b = false) (h2 : b.lt a = false) :
    a = b := by
  rw [Bool.eq_false_iff, Ne, Date.dateLt_iff] at h1 h2
  cases a; cases b
  simp only [Date.mk.injEq] at h1 h2 ⊢
  omega

theorem Time.timeLt_asymm (a b : Time) (h : a.lt b = true) : b.lt a = false := by
  rw [Bool.eq_false_iff, Ne, Time.timeLt_iff]; rw [Time.timeLt_iff] at h; omega

theorem Time.timeLt_cotrans (a b c : Time) (h : a.lt c = true) :
    a.lt b = true ∨ b.lt c = true := by
  rw [Time.timeLt_iff] at h ⊢; rw [Time.timeLt_iff]; omega

theorem Event.eventLt_iff (a b : Event) :
    a.lt b = true ↔
      a.date.lt b.date = true ∨ (a.date = b.date ∧ a.time.lt b.time = true) := by
  unfold Event.lt
  by_cases h : a.date = b.date
  · have he : a.date.eq b.date = true := (Date.dateEq_iff _ _).2 h
    simp only [he, Bool.not_true, Bool.false_eq_true, if_false]
    simp only [h, Date.dateLt_irrefl, Bool.false_eq_true, false_or, true_and]
  · have he : a.date.eq b.date = false := by
      rw [Bool.eq_false_iff, Ne, Date.dateEq_iff]; exact h
    simp [he, h]

theorem Event.eventLt_asymm (a b : Event) (h : a.lt b = true) : b.lt a = false := by
  rw [Bool.eq_false_iff, Ne, Event.eventLt_iff]
  rw [Event.eventLt_iff] at h
  rintro (h2 | ⟨h2, h3⟩)
  · rcases h with h | ⟨h, _⟩
    · simp [Date.dateLt_asymm _ _ h] at h2
    · rw [h, Date.dateLt_irrefl] at h2; exact Bool.noConfusion h2
  · rcases h with h | ⟨_, h⟩
    · rw [h2, Date.dateLt_irrefl] at h; exact Bool.noConfusion h
    · simp [Time.timeLt_asymm _ _ h] at h3

theorem Event.eventLt_cotrans (a b c : Event) (h : a.lt c = true) :
    a.lt b = true ∨ b.lt c = true := by
  rw [Event.eventLt_iff] at h
  rcases h with h | ⟨hd, ht⟩
  · rcases Date.dateLt_cotrans a.date b.date c.date h with h1 | h1
    · exact Or.inl ((Event.eventLt_iff _ _).2 (Or.inl h1))
    · exact Or.inr ((Event.eventLt_iff _ _).2 (Or.inl h1))
  · by_cases h1 : a.date.lt b.date = true
    · exact Or.inl ((Event.eventLt_iff _ _).2 (Or.inl h1))
    by_cases h2 : b.date.lt a.date = true
    · exact Or.inr ((Event.eventLt_iff _ _).2 (Or.inl (hd ▸ h2)))
    have hab : a.date = b.date :=
      Date.dateEq_of_not_lt _ _ (by simpa using h1) (by simpa using h2)
    rcases Time.timeLt_cotrans a.time b.time c.time ht with h3 | h3
    · exact Or.inl ((Event.eventLt_iff _ _).2 (Or.inr ⟨hab, h3⟩))
    · exact Or.inr ((Event.eventLt_iff _ _).2 (Or.inr ⟨hab ▸ hd, h3⟩))

theorem Event.eventLt_negTrans (a b c : Event) (hab : b.lt a = false) (hbc : c.lt b = false) :
    c.lt a = false := by
  rw [Bool.eq_false_iff]
  intro h
  rcases Event.eventLt_cotrans c b a h with h1 | h1
  · rw [hbc] at h1; exact Bool.noConfusion h1
  · rw [hab] at h1; exact Bool.noConfusion h1

theorem sortInsert_perm (x : Event) (l : List Event) : (sortInsert x l).Perm (x :: l) := by
  induction l with
  | nil => exact List.Perm.refl _
  | cons y ys ih =>
    unfold sortInsert
    split_ifs
    · exact List.Perm.refl _
    · exact (List.Perm.cons y ih).trans (List.Perm.swap x y ys)

theorem stdSort_perm (l : List Event) : (stdSort l).Perm l := by
  induction l with
  | nil => exact List.Perm.refl _
  | cons x xs ih => exact (sortInsert_perm x (stdSort xs)).trans (List.Perm.cons x ih)

theorem sortInsert_sorted (x : Event) (l : List Event) (h : Sorted l) :
    Sorted (sortInsert x l) := by
  induction l with
  | nil => simp [sortInsert, Sorted]
  | cons y ys ih =>
    unfold Sorted at h ih ⊢
    rw [List.pairwise_cons] at h
    unfold sortInsert
    split_ifs with hxy
    · refine List.pairwise_cons.2 ⟨?_, List.pairwise_cons.2 h⟩
      intro z hz
      rcases List.mem_cons.1 hz with rfl | hz
      · exact Event.eventLt_asymm _ _ hxy
      · exact Event.eventLt_negTrans x y z (Event.eventLt_asymm _ _ hxy) (h.1 z hz)
    · refine List.pairwise_cons.2 ⟨?_, ih h.2⟩
      intro z hz
      rcases List.mem_cons.1 ((sortInsert_perm x ys).mem_iff.1 hz) with rfl | hz
      · simpa using hxy
      · exact h.1 z hz

theorem stdSort_sorted (l : List Event) : Sorted (stdSort l) := by
  induction l with
  | nil => simp [stdSort, Sorted]
  | cons x xs ih => exact sortInsert_sorted x _ ih

theorem viewEvents_events (mgr : EventManager) :
    (viewEvents mgr).1.events = stdSort mgr.events := by
  unfold viewEvents
  split_ifs with h
  · have : mgr.events = [] := by simpa using h
    simp [this, stdSort]
  · rfl

theorem Sorted.adjacent {l : List Event} (h : Sorted l) (i : Nat) (hi : i + 1 < l.length) :
    (l.get ⟨i + 1, hi⟩).lt (l.get ⟨i, Nat.lt_of_succ_lt hi⟩) = false :=
  List.pairwise_iff_get.1 h ⟨i, Nat.lt_of_succ_lt hi⟩ ⟨i + 1, hi⟩ (by simp)

/-! ## Listing (C1, C2) -/

theorem displayed_map_display (l : List Event) : displayed (l.map Out.display) = l := by
  induction l with
  | nil => rfl
  | cons e rest ih => simp [displayed, ih]

/-- C1: after any sequence of adds to the empty store, `viewEvents` leaves the
store in non-decreasing (date, time) order: of two adjacent events of the
resulting store, the later one is not less than the earlier one under
`Event::operator<`. -/
theorem C1_viewEvents_sorted_after_adds (inputs : List AddInput) (i : Nat)
    (hi : i + 1 < (viewEvents (addAll EventManager.empty inputs)).1.events.length) :
    ((viewEvents (addAll EventManager.empty inputs)).1.events.get ⟨i + 1, hi⟩).lt
      ((viewEvents (addAll EventManager.empty inputs)).1.events.get
        ⟨i, Nat.lt_of_succ_lt hi⟩) = false := by
  have hs : Sorted (viewEvents (addAll EventManager.empty inputs)).1.events := by
    rw [viewEvents_events]; exact stdSort_sorted _
  exact hs.adjacent i hi

/-- The scenario of the specification: after adding Standup (15/3/2024) and then
Release (1/1/2024), listing puts Release first, and Standup is not less than it. -/
theorem C1_viewEvents_sorted_witness :
    (viewEvents (addAll EventManager.empty [scenarioStandup, scenarioRelease])).1.events.map
        Event.name = ["Release", "Standup"] ∧
    ∃ hi : 0 + 1 <
        (viewEvents (addAll EventManager.empty [scenarioStandup, scenarioRelease])).1.events.length,
      ((viewEvents (addAll EventManager.empty [scenarioStandup, scenarioRelease])).1.events.get
          ⟨0 + 1, hi⟩).lt
        ((viewEvents (addAll EventManager.empty [scenarioStandup, scenarioRelease])).1.events.get
          ⟨0, Nat.lt_of_succ_lt hi⟩) = false :=
  ⟨by decide, by decide,
    C1_viewEvents_sorted_after_adds [scenarioStandup, scenarioRelease] 0 (by decide)⟩

/-- C2: `viewEvents` only reorders the store. The resulting store is a
permutation of the store before the call, so it has the same length and every
event (name, date, time and description together) occurs in it as often as
before; and the events rendered are exactly the events of the resulting store,
in its order. -/
theorem C2_viewEvents_permutation (mgr : EventManager) :
    (viewEvents mgr).1.events.Perm mgr.events ∧
    (viewEvents mgr).1.events.length = mgr.events.length ∧
    (∀ e : Event, (viewEvents mgr).1.events.count e = mgr.events.count e) ∧
    displayed (viewEvents mgr).2 = (viewEvents mgr).1.events := by
  have hp : (viewEvents mgr).1.events.Perm mgr.events := by
    rw [viewEvents_events]; exact stdSort_perm _
  refine ⟨hp, hp.length_eq, fun e => hp.count_eq e, ?_⟩
  unfold viewEvents
  split_ifs with h
  · have : mgr.events = [] := by simpa using h
    simp [displayed, this]
  · simp [displayed, displayed_map_display]

/-! ## Adding (C3, C4) -/

theorem addDate_of_not_inRange (d m y : Int) (h : dateInRange d m y = false) :
    (addDate d m y).1 = Date.default := by
  have hc : d < 1 ∨ d > 31 ∨ m < 1 ∨ m > 12 ∨ y < 1900 ∨ y > 2100 := by
    simp only [dateInRange, Bool.and_eq_false_iff, decide_eq_false_iff_not] at h
    omega
  simp [addDate, hc, Date.default]

theorem addDate_of_inRange (d m y : Int) (h : dateInRange d m y = true) :
    addDate d m y = ({ day := d, month := m, year := y }, []) := by
  have hc : ¬ (d < 1 ∨ d > 31 ∨ m < 1 ∨ m > 12 ∨ y < 1900 ∨ y > 2100) := by
    simp only [dateInRange, Bool.and_eq_true, decide_eq_true_eq] at h
    omega
  simp [addDate, hc]

theorem addTime_of_not_inRange (h min : Int) (hr : timeInRange h min = false) :
    (addTime h min).1 = Time.default := by
  have hc : h < 0 ∨ h > 23 ∨ min < 0 ∨ min > 59 := by
    simp only [timeInRange, Bool.and_eq_false_iff, decide_eq_false_iff_not] at hr
    omega
  simp [addTime, hc, Time.default]

theorem addTime_of_inRange (h min : Int) (hr : timeInRange h min = true) :
    addTime h min = ({ hour := h, minute := min }, []) := by
  have hc : ¬ (h < 0 ∨ h > 23 ∨ min < 0 ∨ min > 59) := by
    simp only [timeInRange, Bool.and_eq_true, decide_eq_true_eq] at hr
    omega
  simp [addTime, hc]

/-- C3, as stated, fails: an add with day 32 and the in-range time 09:30 is
accepted and its date becomes 1/1/2000, but its time stays 09:30, so the new
event is not equal to the default Date/Time (1/1/2000, 00:00). -/
theorem C3_out_of_range_day_keeps_time :
    dateInRange 32 3 2024 = false ∧
    (addEvent EventManager.empty
        { name := "x", d := 32, m := 3, y := 2024, h := 9, min := 30, description := "" }).1.events
      = [{ name := "x", date := { day := 1, month := 1, year := 2000 },
           time := { hour := 9, minute := 30 }, description := "" }] ∧
    ({ hour := 9, minute := 30 } : Time) ≠ Time.default := by
  decide

/-- C3, amended: every add appends one event, whatever its input. If a date
component is out of range the event's date is the default 1/1/2000 (all three
fields), otherwise it is the date given; if a time component is out of range
the event's time is the default 00:00, otherwise it is the time given. The two
fields are judged independently, so the event is equal to the default
Date/Time (1/1/2000, 00:00) when both the date and the time have an
out-of-range component. -/
theorem C3_addEvent_defaults_per_field (mgr : EventManager) (i : AddInput) :
    ∃ e : Event, (addEvent mgr i).1.events = mgr.events ++ [e] ∧
      (dateInRange i.d i.m i.y = false → e.date = Date.default) ∧
      (timeInRange i.h i.min = false → e.time = Time.default) ∧
      (dateInRange i.d i.m i.y = true → e.date = { day := i.d, month := i.m, year := i.y }) ∧
      (timeInRange i.h i.min = true → e.time = { hour := i.h, minute := i.min }) ∧
      (dateInRange i.d i.m i.y = false → timeInRange i.h i.min = false →
        (e.date, e.time) = (Date.default, Time.default)) := by
  refine ⟨_, rfl, ?_, ?_, ?_, ?_, ?_⟩
  · exact addDate_of_not_inRange _ _ _
  · exact addTime_of_not_inRange _ _
  · intro h; simp [addDate_of_inRange _ _ _ h]
  · intro h; simp [addTime_of_inRange _ _ h]
  · intro h1 h2
    simp [addDate_of_not_inRange _ _ _ h1, addTime_of_not_inRange _ _ h2]

/-- An add with an out-of-range day and an out-of-range minute on top of a
one-event store: the new event is the default Date/Time. -/
theorem C3_addEvent_defaults_witness :
    ∃ e : Event,
      (addEvent { events := [{ name := "a", date := { day := 2, month := 2, year := 2002 },
                               time := { hour := 2, minute := 2 }, description := "b" }] }
          { name := "x", d := 32, m := 3, y := 2024, h := 9, min := 60,
            description := "" }).1.events
        = [{ name := "a", date := { day := 2, month := 2, year := 2002 },
             time := { hour := 2, minute := 2 }, description := "b" }] ++ [e] ∧
      (e.date, e.time) = (Date.default, Time.default) := by
  obtain ⟨e, he, _, _, _, _, h⟩ := C3_addEvent_defaults_per_field
    { events := [{ name := "a", date := { day := 2, month := 2, year := 2002 },
                   time := { hour := 2, minute := 2 }, description := "b" }] }
    { name := "x", d := 32, m := 3, y := 2024, h := 9, min := 60, description := "" }
  exact ⟨e, he, h (by decide) (by decide)⟩

/-- C4: `addEvent` has no rejection path. For every store and every input the
resulting store is the old store followed by exactly one new event: the length
grows by one, the events at the old positions are unchanged, the new last event
has the name and the description of the input verbatim, the given date when
the date components are in range and the given time when the time components
are in range; and the operation ends by reporting the add. -/
theorem C4_addEvent_appends_one (mgr : EventManager) (i : AddInput) :
    ∃ e : Event, (addEvent mgr i).1.events = mgr.events ++ [e] ∧
      (addEvent mgr i).1.events.length = mgr.events.length + 1 ∧
      (∀ k : Nat, k < mgr.events.length →
        (addEvent mgr i).1.events[k]? = mgr.events[k]?) ∧
      (addEvent mgr i).1.events[mgr.events.length]? = some e ∧
      e.name = i.name ∧ e.description = i.description ∧
      (dateInRange i.d i.m i.y = true → e.date = { day := i.d, month := i.m, year := i.y }) ∧
      (timeInRange i.h i.min = true → e.time = { hour := i.h, minute := i.min }) ∧
      (addEvent mgr i).2.getLast? =
        some (Out.text ("Event '" ++ i.name ++ "' added successfully!\n")) := by
  refine ⟨_, rfl, ?_, ?_, ?_, rfl, rfl, ?_, ?_, ?_⟩
  · simp [addEvent]
  · intro k hk
    simp only [addEvent]
    rw [List.getElem?_append_left hk]
  · simp [addEvent]
  · intro h; simp [addDate_of_inRange _ _ _ h]
  · intro h; simp [addTime_of_inRange _ _ h]
  · simp only [addEvent]
    rw [List.getLast?_append]
    rfl

/-- The second add of the scenario, with an empty description, on the store that
holds Standup: the store becomes Standup followed by the new event as given. -/
theorem C4_addEvent_appends_witness :
    ∃ e : Event,
      (addEvent (addEvent EventManager.empty scenarioStandup).1
          { name := "", d := 1, m := 1, y := 2024, h := 17, min := 0,
            description := "" }).1.events
        = (addEvent EventManager.empty scenarioStandup).1.events ++ [e] ∧
      e = { name := "", date := { day := 1, month := 1, year := 2024 },
            time := { hour := 17, minute := 0 }, description := "" } := by
  obtain ⟨e, he, _, _, _, hn, hd, hdate, htime, _⟩ := C4_addEvent_appends_one
    (addEvent EventManager.empty scenarioStandup).1
    { name := "", d := 1, m := 1, y := 2024, h := 17, min := 0, description := "" }
  refine ⟨e, he, ?_⟩
  have h1 := hdate (by decide)
  have h2 := htime (by decide)
  cases e
  simp_all

/-! ## Deleting (C5, C6) -/

theorem removeIf_eq_filter (pred : Event → Bool) (l : List Event) :
    removeIf pred l = l.filter (fun e => !pred e) := by
  induction l with
  | nil => rfl
  | cons e rest ih =>
    unfold removeIf
    by_cases h : pred e = true
    · simp [h, ih]
    · simp [h, ih]

theorem deleteEvent_events (mgr : EventManager) (eventName : String) :
    (deleteEvent mgr eventName).1.events
      = mgr.events.filter (fun e => decide (e.name ≠ eventName)) := by
  unfold deleteEvent
  split_ifs with h
  · have : mgr.events = [] := by simpa using h
    simp [this]
  · simp [removeIf_eq_filter]

/-- The success report and the not-found report of `deleteEvent` differ in their
seventh character, whatever the name. -/
theorem success_ne_notFound (n : String) :
    "Event '" ++ n ++ "' deleted successfully!\n"
      ≠ "Event with name '" ++ n ++ "' not found.\n" := by
  intro h
  have h2 := congrArg (fun s : String => s.data[6]?) h
  simp [String.data_append] at h2

/-- C5: `deleteEvent` yields exactly the events whose name is not the target
name, in their original relative order. The result is a sub-sequence of the old
store, no event named like the target remains in it (all of them are removed,
not just the first), every event with another name occurs in it as often as
before, and the length drops by exactly the number of events named like the
target. -/
theorem C5_deleteEvent_removes_all_named (mgr : EventManager) (eventName : String) :
    (deleteEvent mgr eventName).1.events
      = mgr.events.filter (fun e => decide (e.name ≠ eventName)) ∧
    (deleteEvent mgr eventName).1.events.Sublist mgr.events ∧
    (∀ e ∈ (deleteEvent mgr eventName).1.events, e.name ≠ eventName) ∧
    (∀ e : Event, e.name ≠ eventName →
      (deleteEvent mgr eventName).1.events.count e = mgr.events.count e) ∧
    (deleteEvent mgr eventName).1.events.length
        + mgr.events.countP (fun e => decide (e.name = eventName))
      = mgr.events.length := by
  rw [deleteEvent_events]
  refine ⟨rfl, List.filter_sublist _, ?_, ?_, ?_⟩
  · intro e he
    simpa using (List.mem_filter.1 he).2
  · intro e he
    exact List.count_filter (by simpa using he)
  · rw [← List.countP_eq_length_filter]
    have := List.length_eq_countP_add_countP
      (fun e : Event => decide (e.name = eventName)) mgr.events
    rw [this, Nat.add_comm]
    congr 1
    apply List.countP_congr
    intro e _
    simp

/-- C6: `deleteEvent` reports success if and only if some event of the store has
exactly the target name. Otherwise the store is left unchanged and the
operation reports that nothing was found: `Event with name '...' not found.` on
a store that holds events, `No events to delete.` on the empty store. -/
theorem C6_deleteEvent_report (mgr : EventManager) (eventName : String) :
    ((∃ e ∈ mgr.events, e.name = eventName) ↔
      Out.text ("Event '" ++ eventName ++ "' deleted successfully!\n")
        ∈ (deleteEvent mgr eventName).2) ∧
    ((¬ ∃ e ∈ mgr.events, e.name = eventName) →
      (deleteEvent mgr eventName).1 = mgr ∧
      (mgr.events ≠ [] → (deleteEvent mgr eventName).2 =
        [Out.text "\n--- Delete Event ---\n",
         Out.text "Enter the NAME of the event to delete: ",
         Out.text ("Event with name '" ++ eventName ++ "' not found.\n")]) ∧
      (mgr.events = [] →
        (deleteEvent mgr eventName).2 = [Out.text "\nNo events to delete.\n"])) := by
  have hlen : (removeIf (fun e => decide (e.name = eventName)) mgr.events).length
      < mgr.events.length ↔ ∃ e ∈ mgr.events, e.name = eventName := by
    rw [removeIf_eq_filter, List.length_filter_lt_length_iff_exists]
    simp
  by_cases hemp : mgr.events = []
  · have hno : ¬ ∃ e ∈ mgr.events, e.name = eventName := by simp [hemp]
    have hd : deleteEvent mgr eventName = (mgr, [Out.text "\nNo events to delete.\n"]) := by
      simp [deleteEvent, hemp]
    rw [hd]
    refine ⟨⟨fun h => absurd h hno, fun h => ?_⟩,
      fun _ => ⟨rfl, fun h => absurd hemp h, fun _ => rfl⟩⟩
    have h6 : "Event '" ++ eventName ++ "' deleted successfully!\n"
        = "\nNo events to delete.\n" := by
      simpa using h
    have h2 := congrArg (fun s : String => s.data[0]?) h6
    simp [String.data_append] at h2
  · have hne : mgr.events.isEmpty = false := by simpa using hemp
    by_cases hex : ∃ e ∈ mgr.events, e.name = eventName
    · have hd : (deleteEvent mgr eventName).2 =
          [Out.text "\n--- Delete Event ---\n",
           Out.text "Enter the NAME of the event to delete: ",
           Out.text ("Event '" ++ eventName ++ "' deleted successfully!\n")] := by
        simp only [deleteEvent, hne, Bool.false_eq_true, if_false, hlen.2 hex, if_true]
      rw [hd]
      exact ⟨⟨fun _ => by simp, fun _ => hex⟩, fun h => absurd hex h⟩
    · have hl : ¬ (removeIf (fun e => decide (e.name = eventName)) mgr.events).length
          < mgr.events.length := fun h => hex (hlen.1 h)
      have hd : (deleteEvent mgr eventName).2 =
          [Out.text "\n--- Delete Event ---\n",
           Out.text "Enter the NAME of the event to delete: ",
           Out.text ("Event with name '" ++ eventName ++ "' not found.\n")] := by
        simp only [deleteEvent, hne, Bool.false_eq_true, if_false, hl]
      have hs : (deleteEvent mgr eventName).1 = mgr := by
        have he := deleteEvent_events mgr eventName
        have hf : mgr.events.filter (fun e => decide (e.name ≠ eventName)) = mgr.events := by
          rw [List.filter_eq_self]
          intro a ha
          simpa using fun h => hex ⟨a, ha, h⟩
        rw [hf] at he
        cases mgr
        cases hm : deleteEvent _ eventName with
        | mk m o =>
          cases m
          simp_all
      refine ⟨⟨fun h => absurd h hex, fun h => ?_⟩,
        fun _ => ⟨hs, fun _ => hd, fun h => absurd h hemp⟩⟩
      rw [hd] at h
      have h6 : "Event '" ++ eventName ++ "' deleted successfully!\n"
          = "Event with name '" ++ eventName ++ "' not found.\n" := by
        have h7 : "Event '" ++ eventName ++ "' deleted successfully!\n"
            ≠ "\n--- Delete Event ---\n" := by
          intro h8
          have h2 := congrArg (fun s : String => s.data[0]?) h8
          simp [String.data_append] at h2
        have h9 : "Event '" ++ eventName ++ "' deleted successfully!\n"
            ≠ "Enter the NAME of the event to delete: " := by
          intro h8
          have h2 := congrArg (fun s : String => s.data[1]?) h8
          simp [String.data_append] at h2
        simpa [h7, h9] using h
      exact absurd h6 (success_ne_notFound eventName)

/-! ## Editing (C7 - C10) -/

theorem editLoop_of_no_match (eventName : String) (i : EditInput) (l : List Event)
    (h : ∀ x ∈ l, x.name ≠ eventName) : editLoop eventName i l = none := by
  induction l with
  | nil => rfl
  | cons e rest ih =>
    have he : e.name ≠ eventName := h e (List.mem_cons_self _ _)
    have hr := ih (fun x hx => h x (List.mem_cons_of_mem _ hx))
    simp [editLoop, he, hr]

theorem editLoop_of_first_match (eventName : String) (i : EditInput) (pre : List Event)
    (e : Event) (post : List Event) (hpre : ∀ x ∈ pre, x.name ≠ eventName)
    (he : e.name = eventName) :
    editLoop eventName i (pre ++ e :: post)
      = some (pre ++ (editFound e i).1 :: post, (editFound e i).2) := by
  induction pre with
  | nil => simp [editLoop, he]
  | cons x rest ih =>
    have hx : x.name ≠ eventName := hpre x (List.mem_cons_self _ _)
    have hr := ih (fun y hy => hpre y (List.mem_cons_of_mem _ hy))
    simp [editLoop, hx, hr]

theorem first_match_split (eventName : String) (l : List Event) :
    (∀ x ∈ l, x.name ≠ eventName) ∨
    ∃ pre e post, l = pre ++ e :: post ∧ (∀ x ∈ pre, x.name ≠ eventName) ∧
      e.name = eventName := by
  induction l with
  | nil => exact Or.inl (by simp)
  | cons x rest ih =>
    by_cases hx : x.name = eventName
    · exact Or.inr ⟨[], x, rest, rfl, by simp, hx⟩
    · rcases ih with h | ⟨pre, e, post, hl, hpre, he⟩
      · refine Or.inl (fun y hy => ?_)
        rcases List.mem_cons.1 hy with rfl | hy
        · exact hx
        · exact h y hy
      · refine Or.inr ⟨x :: pre, e, post, by simp [hl], fun y hy => ?_, he⟩
        rcases List.mem_cons.1 hy with rfl | hy
        · exact hx
        · exact hpre y hy

theorem firstNamed_of_no_match (eventName : String) (l : List Event)
    (h : ∀ x ∈ l, x.name ≠ eventName) : firstNamed eventName l = none := by
  induction l with
  | nil => rfl
  | cons e rest ih =>
    have he : e.name ≠ eventName := h e (List.mem_cons_self _ _)
    have hr := ih (fun x hx => h x (List.mem_cons_of_mem _ hx))
    simp [firstNamed, he, hr]

theorem firstNamed_of_first_match (eventName : String) (pre : List Event)
    (e : Event) (post : List Event) (hpre : ∀ x ∈ pre, x.name ≠ eventName)
    (he : e.name = eventName) :
    firstNamed eventName (pre ++ e :: post) = some pre.length := by
  induction pre with
  | nil => simp [firstNamed, he]
  | cons x rest ih =>
    have hx : x.name ≠ eventName := hpre x (List.mem_cons_self _ _)
    have hr := ih (fun y hy => hpre y (List.mem_cons_of_mem _ hy))
    simp [firstNamed, hx, hr]

theorem editEvent_of_no_match (mgr : EventManager) (eventName : String) (i : EditInput)
    (h : ∀ x ∈ mgr.events, x.name ≠ eventName) : (editEvent mgr eventName i).1 = mgr := by
  unfold editEvent
  split_ifs
  · rfl
  · rw [editLoop_of_no_match eventName i _ h]

theorem editEvent_of_first_match (eventName : String) (i : EditInput) (pre : List Event)
    (e : Event) (post : List Event) (hpre : ∀ x ∈ pre, x.name ≠ eventName)
    (he : e.name = eventName) :
    editEvent { events := pre ++ e :: post } eventName i
      = ({ events := pre ++ (editFound e i).1 :: post },
         [Out.text "\n--- Edit Event ---\n", Out.text "Enter the NAME of the event to edit: "]
           ++ (editFound e i).2) := by
  unfold editEvent
  simp only [editLoop_of_first_match eventName i pre e post hpre he]
  simp

/-- C7: `editEvent` changes at most the first event whose name is the target
name. The store keeps its length, and every position other than the position
of the first event of that name holds the event it held before: events with
other names, and later events that also have the target name. The last part
says what that position is: it holds an event of the target name and no
earlier position does. -/
theorem C7_editEvent_changes_first_match_only (mgr : EventManager) (eventName : String)
    (i : EditInput) :
    (editEvent mgr eventName i).1.events.length = mgr.events.length ∧
    (∀ k : Nat, firstNamed eventName mgr.events ≠ some k →
      (editEvent mgr eventName i).1.events[k]? = mgr.events[k]?) ∧
    (∀ k : Nat, firstNamed eventName mgr.events = some k →
      (∃ e, mgr.events[k]? = some e ∧ e.name = eventName) ∧
      ∀ j : Nat, j < k → ∀ e, mgr.events[j]? = some e → e.name ≠ eventName) := by
  rcases first_match_split eventName mgr.events with h | ⟨pre, e, post, hl, hpre, he⟩
  · rw [editEvent_of_no_match mgr eventName i h, firstNamed_of_no_match eventName _ h]
    simp
  · obtain ⟨l⟩ := mgr
    simp only at hl
    subst hl
    rw [editEvent_of_first_match eventName i pre e post hpre he,
      firstNamed_of_first_match eventName pre e post hpre he]
    refine ⟨by simp, fun k hk => ?_, fun k hk => ?_⟩
    · have hk2 : k ≠ pre.length := fun h => hk (by rw [h])
      simp only
      rcases Nat.lt_or_gt_of_ne hk2 with h | h
      · rw [List.getElem?_append_left h, List.getElem?_append_left h]
      · rw [List.getElem?_append_right (Nat.le_of_lt h),
          List.getElem?_append_right (Nat.le_of_lt h)]
        obtain ⟨d, hd⟩ : ∃ d, k - pre.length = d + 1 := ⟨k - pre.length - 1, by omega⟩
        rw [hd]
        rfl
    · have hk2 : k = pre.length := by simpa using hk.symm
      subst hk2
      refine ⟨⟨e, by rw [List.getElem?_append_right (Nat.le_refl _)]; simp, he⟩,
        fun j hj e2 he2 => ?_⟩
      rw [List.getElem?_append_left hj] at he2
      exact hpre e2 (List.getElem?_mem he2)

theorem editFound_blank (e : Event) :
    (editFound e { newName := "", date_input_str := "", time_input_str := "",
                   newDescription := "" }).1 = e := by
  simp [editFound, editDate, editTime]

/-- C8: `editEvent` with the four replacement lines empty leaves the store
exactly as it was, whether or not an event has the target name. -/
theorem C8_editEvent_all_blank (mgr : EventManager) (eventName : String) :
    (editEvent mgr eventName
      { newName := "", date_input_str := "", time_input_str := "", newDescription := "" }).1
      = mgr := by
  rcases first_match_split eventName mgr.events with h | ⟨pre, e, post, hl, hpre, he⟩
  · exact editEvent_of_no_match mgr eventName _ h
  · obtain ⟨l⟩ := mgr
    simp only at hl
    subst hl
    rw [editEvent_of_first_match eventName _ pre e post hpre he, editFound_blank]

theorem editDate_congr (e e2 : Event) (s : String) (h : e.date = e2.date) :
    (editDate e s).1.date = (editDate e2 s).1.date ∧ (editDate e s).2 = (editDate e2 s).2 := by
  unfold editDate
  split_ifs
  · split
    · split_ifs <;> simp [h]
    · simp [h]
  · simp [h]

theorem editDate_others (e : Event) (s : String) :
    (editDate e s).1.name = e.name ∧ (editDate e s).1.time = e.time ∧
      (editDate e s).1.description = e.description := by
  unfold editDate
  split_ifs
  · split
    · split_ifs <;> simp
    · simp
  · simp

theorem editTime_congr (e e2 : Event) (s : String) (h : e.time = e2.time) :
    (editTime e s).1.time = (editTime e2 s).1.time ∧ (editTime e s).2 = (editTime e2 s).2 := by
  unfold editTime
  split_ifs
  · split
    · split_ifs <;> simp [h]
    · simp [h]
  · simp [h]

theorem editTime_others (e : Event) (s : String) :
    (editTime e s).1.name = e.name ∧ (editTime e s).1.date = e.date ∧
      (editTime e s).1.description = e.description := by
  unfold editTime
  split_ifs
  · split
    · split_ifs <;> simp
    · simp
  · simp

theorem editFound_name (e : Event) (i : EditInput) :
    (editFound e i).1.name = if i.newName = "" then e.name else i.newName := by
  simp only [editFound]
  split_ifs <;> simp_all [(editTime_others _ _).1, (editDate_others _ _).1]

theorem editFound_description (e : Event) (i : EditInput) :
    (editFound e i).1.description
      = if i.newDescription = "" then e.description else i.newDescription := by
  simp only [editFound]
  split_ifs <;> simp_all [(editTime_others _ _).2.2, (editDate_others _ _).2.2]

theorem editFound_date (e : Event) (i : EditInput) :
    (editFound e i).1.date = (editDate e i.date_input_str).1.date := by
  simp only [editFound]
  split_ifs <;> simp only [(editTime_others _ _).2.1] <;>
    first
      | rfl
      | exact (editDate_congr _ _ _ (by rfl)).1

theorem editFound_time (e : Event) (i : EditInput) :
    (editFound e i).1.time = (editTime e i.time_input_str).1.time := by
  simp only [editFound]
  split_ifs <;> refine (editTime_congr _ _ _ ?_).1 <;> simp [(editDate_others _ _).2.1]

theorem editDate_of_too_few (e : Event) (s : String) (hne : s ≠ "")
    (hs : (sscanfInts 3 (c_str s)).length ≠ 3) :
    editDate e s = (e, [Out.text "Invalid date format. Date not updated.\n"]) := by
  unfold editDate
  rw [if_pos hne]
  split
  · rename_i h; simp [h] at hs
  · rfl

theorem editTime_of_too_few (e : Event) (s : String) (hne : s ≠ "")
    (hs : (sscanfInts 2 (c_str s)).length ≠ 2) :
    editTime e s = (e, [Out.text "Invalid time format. Time not updated.\n"]) := by
  unfold editTime
  rw [if_pos hne]
  split
  · rename_i h; simp [h] at hs
  · rfl

theorem editFound_date_output (e : Event) (i : EditInput) (o : Out)
    (h : o ∈ (editDate e i.date_input_str).2) : o ∈ (editFound e i).2 := by
  have hc : (editDate (if i.newName ≠ "" then { e with name := i.newName } else e)
      i.date_input_str).2 = (editDate e i.date_input_str).2 := by
    split_ifs
    · exact (editDate_congr _ _ _ (by rfl)).2
    · rfl
  simp only [editFound, hc]
  simp [h]

theorem editFound_time_output (e : Event) (i : EditInput) (o : Out)
    (h : o ∈ (editTime e i.time_input_str).2) : o ∈ (editFound e i).2 := by
  have hc : (editTime (editDate (if i.newName ≠ "" then { e with name := i.newName } else e)
      i.date_input_str).1 i.time_input_str).2 = (editTime e i.time_input_str).2 := by
    refine (editTime_congr _ _ _ ?_).2
    rw [(editDate_others _ _).2.1]
    split_ifs <;> rfl
  simp only [editFound, hc]
  simp [h]

theorem editFound_last_output (e : Event) (i : EditInput) :
    (editFound e i).2.getLast?
      = some (Out.text ("Event '" ++ (editFound e i).1.name ++ "' updated successfully!\n")) := by
  simp only [editFound]
  rw [List.getLast?_append]
  rfl

theorem scanDigits_append (l : List Char) (acc : Nat) (c : Char) (t : List Char)
    (hc : c.isDigit = false) :
    scanDigits acc (l ++ c :: t) = ((scanDigits acc l).1, (scanDigits acc l).2 ++ c :: t) := by
  induction l generalizing acc with
  | nil => simp [scanDigits, hc]
  | cons x rest ih =>
    by_cases hx : x.isDigit = true
    · simp [scanDigits, hx, ih]
    · simp [scanDigits, hx]

theorem skipSpace_append (s u : List Char) (h : skipSpace s ≠ []) :
    skipSpace (s ++ u) = skipSpace s ++ u := by
  induction s with
  | nil => simp [skipSpace] at h
  | cons x rest ih =>
    by_cases hx : isspace x = true
    · simp only [skipSpace, hx, if_true, List.cons_append] at h ⊢
      exact ih h
    · simp [skipSpace, hx]

theorem scanInt_append (s : List Char) (v : Int) (r : List Char) (c : Char) (t : List Char)
    (hc : c.isDigit = false) (h : scanInt s = some (v, r)) :
    scanInt (s ++ c :: t) = some (v, r ++ c :: t) := by
  have hne : skipSpace s ≠ [] := by
    intro h0
    simp [scanInt, h0] at h
  unfold scanInt at h ⊢
  rw [skipSpace_append s _ hne]
  cases hs : skipSpace s with
  | nil => exact absurd hs hne
  | cons x xs =>
    rw [hs] at h
    simp only [List.cons_append] at h ⊢
    by_cases h1 : x = '-'
    · simp only [h1, if_true] at h ⊢
      cases xs with
      | nil => simp at h
      | cons c2 rest =>
        simp only [List.cons_append] at h ⊢
        by_cases h2 : c2.isDigit = true
        · simp only [h2, if_true, Option.some.injEq, Prod.mk.injEq] at h ⊢
          rw [← List.cons_append, scanDigits_append _ _ _ _ hc]
          simp [h.1, h.2]
        · simp [h2] at h
    · by_cases h3 : x = '+'
      · have hpm : ¬ ('+' : Char) = '-' := by decide
        simp only [h3, hpm, if_false, if_true] at h ⊢
        cases xs with
        | nil => simp at h
        | cons c2 rest =>
          simp only [List.cons_append] at h ⊢
          by_cases h2 : c2.isDigit = true
          · simp only [h2, if_true, Option.some.injEq, Prod.mk.injEq] at h ⊢
            rw [← List.cons_append, scanDigits_append _ _ _ _ hc]
            simp [h.1, h.2]
          · simp [h2] at h
      · simp only [h1, if_false, h3] at h ⊢
        by_cases h2 : x.isDigit = true
        · simp only [h2, if_true, Option.some.injEq, Prod.mk.injEq] at h ⊢
          rw [← List.cons_append, scanDigits_append _ _ _ _ hc]
          simp [h.1, h.2]
        · simp [h2] at h

theorem sscanfInts_append (n : Nat) (s : List Char) (c : Char) (t : List Char)
    (hc : c.isDigit = false) (h : (sscanfInts n s).length = n) :
    sscanfInts n (s ++ c :: t) = sscanfInts n s := by
  induction n generalizing s with
  | zero => simp [sscanfInts]
  | succ k ih =>
    cases hs : scanInt s with
    | none => simp [sscanfInts, hs] at h
    | some p =>
      obtain ⟨v, r⟩ := p
      simp only [sscanfInts, hs, List.length_cons, Nat.add_right_cancel_iff] at h
      simp only [sscanfInts, scanInt_append s v r c t hc hs, hs, ih r h]

/-! ### The `int` stored by `%d` -/

theorem storeInt_of_int (v : Int) (hlo : -2147483648 ≤ v) (hhi : v ≤ 2147483647) :
    storeInt v = v := by
  unfold storeInt clampLong toInt32
  rw [if_neg (by omega), if_neg (by omega)]
  omega

theorem storeInt_range (v : Int) : -2147483648 ≤ storeInt v ∧ storeInt v ≤ 2147483647 := by
  unfold storeInt toInt32
  omega

/-- A day written with more digits than an `int` holds: `sscanf` stores the low
32 bits, so the line `4294967297 2 2024` is read as 1, 2, 2024, and a number
beyond the range of `long` is read as -1. -/
theorem sscanfInts_long_digit_strings :
    sscanfInts 3 (c_str "4294967297 2 2024") = [1, 2, 2024] ∧
    sscanfInts 3 (c_str "15 3 2024") = [15, 3, 2024] ∧
    sscanfInts 2 (c_str "-4294967295 99999999999999999999") = [1, -1] := by
  decide

/-! ### The fields of an edit are decided one by one (C9, C10) -/

/-- C10, as stated, fails for too many integers: the date line `1 2 2024 5` and
the time line `10 15 45` are accepted. `sscanf` reads the leading three (two)
integers and does not look at what follows, so the date becomes 1/2/2024 and
the time 10:15, and no warning is printed. -/
theorem C10_extra_integers_accepted :
    (editEvent { events := [exampleA] } "A"
        editExtraIntegers).1.events
      = [{ name := "A", date := { day := 1, month := 2, year := 2024 },
           time := { hour := 10, minute := 15 }, description := "d" }] ∧
    exampleA.date ≠ { day := 1, month := 2, year := 2024 } ∧
    exampleA.time ≠ { hour := 10, minute := 15 } ∧
    Out.text "Invalid date format. Date not updated.\n" ∉
      (editEvent { events := [exampleA] } "A"
        editExtraIntegers).2 ∧
    Out.text "Invalid time format. Time not updated.\n" ∉
      (editEvent { events := [exampleA] } "A"
        editExtraIntegers).2 := by
  decide

/-- C10, amended: in an edit that finds its event, a non-blank date line from
which `sscanf` reads fewer than three integers leaves the date unchanged and
prints `Invalid date format. Date not updated.`, and a non-blank time line with
fewer than two integers leaves the time unchanged and prints the warning for
the time. The rest of the edit is carried out: the other fields follow their
own lines and the edit ends with the success line. Too many integers are not
an error: whatever follows the last integer read, after a character that is
not a digit, does not change what `sscanf` reads. -/
theorem C10_editEvent_too_few_integers (eventName : String) (i : EditInput)
    (pre : List Event) (e : Event) (post : List Event)
    (hpre : ∀ x ∈ pre, x.name ≠ eventName) (he : e.name = eventName) :
    (editEvent { events := pre ++ e :: post } eventName i).1.events
      = pre ++ (editFound e i).1 :: post ∧
    (i.date_input_str ≠ "" → (sscanfInts 3 (c_str i.date_input_str)).length ≠ 3 →
      (editFound e i).1.date = e.date ∧
      Out.text "Invalid date format. Date not updated.\n"
        ∈ (editEvent { events := pre ++ e :: post } eventName i).2) ∧
    (i.time_input_str ≠ "" → (sscanfInts 2 (c_str i.time_input_str)).length ≠ 2 →
      (editFound e i).1.time = e.time ∧
      Out.text "Invalid time format. Time not updated.\n"
        ∈ (editEvent { events := pre ++ e :: post } eventName i).2) ∧
    (editFound e i).1.name = (if i.newName = "" then e.name else i.newName) ∧
    (editFound e i).1.description
      = (if i.newDescription = "" then e.description else i.newDescription) ∧
    (editFound e i).1.date = (editDate e i.date_input_str).1.date ∧
    (editFound e i).1.time = (editTime e i.time_input_str).1.time ∧
    (editEvent { events := pre ++ e :: post } eventName i).2.getLast?
      = some (Out.text ("Event '" ++ (editFound e i).1.name ++ "' updated successfully!\n")) ∧
    (∀ (s : List Char) (c : Char) (t : List Char), c.isDigit = false →
      ((sscanfInts 3 s).length = 3 → sscanfInts 3 (s ++ c :: t) = sscanfInts 3 s) ∧
      ((sscanfInts 2 s).length = 2 → sscanfInts 2 (s ++ c :: t) = sscanfInts 2 s)) := by
  have hev := editEvent_of_first_match eventName i pre e post hpre he
  refine ⟨by rw [hev], ?_, ?_, editFound_name e i, editFound_description e i,
    editFound_date e i, editFound_time e i, ?_, ?_⟩
  · intro hne hs
    have hd := editDate_of_too_few e _ hne hs
    refine ⟨by rw [editFound_date, hd], ?_⟩
    rw [hev]
    exact List.mem_append_right _ (editFound_date_output e i _ (by rw [hd]; simp))
  · intro hne hs
    have hd := editTime_of_too_few e _ hne hs
    refine ⟨by rw [editFound_time, hd], ?_⟩
    rw [hev]
    exact List.mem_append_right _ (editFound_time_output e i _ (by rw [hd]; simp))
  · rw [hev]
    simp only
    rw [List.getLast?_append, editFound_last_output]
    rfl
  · intro s c t hc
    exact ⟨sscanfInts_append 3 s c t hc, sscanfInts_append 2 s c t hc⟩

/-- An edit of the first event named A with the date line `1 2` and the time
line `9`: both fields stay, both warnings are printed, the name and the
description are replaced. -/
theorem C10_editEvent_too_few_witness :
    (editEvent { events := [exampleB] ++ exampleA :: [exampleA] } "A"
        editTooFewIntegers).1.events
      = [exampleB] ++
          (editFound exampleA editTooFewIntegers).1 :: [exampleA] ∧
    (editFound exampleA editTooFewIntegers).1
      = { name := "New", date := { day := 15, month := 3, year := 2024 },
          time := { hour := 9, minute := 30 }, description := "zz" } ∧
    Out.text "Invalid date format. Date not updated.\n"
      ∈ (editEvent { events := [exampleB] ++ exampleA :: [exampleA] } "A"
          editTooFewIntegers).2 ∧
    Out.text "Invalid time format. Time not updated.\n"
      ∈ (editEvent { events := [exampleB] ++ exampleA :: [exampleA] } "A"
          editTooFewIntegers).2 := by
  obtain ⟨hs, hdate, htime, _⟩ := C10_editEvent_too_few_integers "A"
    editTooFewIntegers
    [exampleB] exampleA [exampleA] (by decide) (by decide)
  exact ⟨hs, by decide, (hdate (by decide) (by decide)).2, (htime (by decide) (by decide)).2⟩

/-! ## Not-found reports of an edit (C11) -/

theorem editDate_output_cases (e : Event) (s : String) :
    (editDate e s).2 = [] ∨
    (editDate e s).2 = [Out.text "Invalid date format or range. Date not updated.\n"] ∨
    (editDate e s).2 = [Out.text "Invalid date format. Date not updated.\n"] := by
  unfold editDate
  split_ifs
  · split
    · split_ifs <;> simp
    · simp
  · simp

theorem editTime_output_cases (e : Event) (s : String) :
    (editTime e s).2 = [] ∨
    (editTime e s).2 = [Out.text "Invalid time format or range. Time not updated.\n"] ∨
    (editTime e s).2 = [Out.text "Invalid time format. Time not updated.\n"] := by
  unfold editTime
  split_ifs
  · split
    · split_ifs <;> simp
    · simp
  · simp

/-- Every line printed by the loop body of `editEvent` starts with `C`, `N` or
`I`, or has `f` or a quote as its seventh character. -/
theorem editFound_output_shape (e : Event) (i : EditInput) (o : Out)
    (h : o ∈ (editFound e i).2) :
    ∃ s : String, o = Out.text s ∧
      (s.data[0]? = some 'C' ∨ s.data[0]? = some 'N' ∨ s.data[0]? = some 'I'
        ∨ s.data[6]? = some 'f' ∨ s.data[6]? = some '\'') := by
  simp only [editFound, List.mem_append, List.mem_cons, List.mem_singleton,
    List.not_mem_nil, or_false] at h
  rcases h with ((((h | h | h | h | h) | h) | h | h) | h) | h | h | h
  · exact ⟨_, h, by simp [String.data_append]⟩
  · exact ⟨_, h, by simp [String.data_append]⟩
  · exact ⟨_, h, by simp [String.data_append]⟩
  · exact ⟨_, h, by simp [String.data_append]⟩
  · exact ⟨_, h, by simp [String.data_append]⟩
  · rcases editDate_output_cases
      (if i.newName ≠ "" then { e with name := i.newName } else e) i.date_input_str
      with hc | hc | hc <;> rw [hc] at h
    · simp at h
    · exact ⟨_, List.mem_singleton.1 h, by simp⟩
    · exact ⟨_, List.mem_singleton.1 h, by simp⟩
  · exact ⟨_, h, by simp [String.data_append]⟩
  · exact ⟨_, h, by simp [String.data_append]⟩
  · rcases editTime_output_cases
      (editDate (if i.newName ≠ "" then { e with name := i.newName } else e)
        i.date_input_str).1 i.time_input_str
      with hc | hc | hc <;> rw [hc] at h
    · simp at h
    · exact ⟨_, List.mem_singleton.1 h, by simp⟩
    · exact ⟨_, List.mem_singleton.1 h, by simp⟩
  · exact ⟨_, h, by simp [String.data_append]⟩
  · exact ⟨_, h, by simp [String.data_append]⟩
  · exact ⟨_, h, by simp [String.data_append]⟩

/-- C11: when no event of the store has exactly the target name, `editEvent`
leaves the store as it was, whatever the replacement lines are, and reports
that nothing was found: `Event with name '...' not found.` on a store that
holds events, `No events to edit.` on the empty store. When some event has the
target name, neither of the two reports is printed. -/
theorem C11_editEvent_not_found (mgr : EventManager) (eventName : String) (i : EditInput) :
    ((∀ x ∈ mgr.events, x.name ≠ eventName) →
      (editEvent mgr eventName i).1 = mgr ∧
      (mgr.events ≠ [] → (editEvent mgr eventName i).2 =
        [Out.text "\n--- Edit Event ---\n",
         Out.text "Enter the NAME of the event to edit: ",
         Out.text ("Event with name '" ++ eventName ++ "' not found.\n")]) ∧
      (mgr.events = [] →
        (editEvent mgr eventName i).2 = [Out.text "\nNo events to edit.\n"])) ∧
    ((∃ x ∈ mgr.events, x.name = eventName) →
      Out.text ("Event with name '" ++ eventName ++ "' not found.\n")
        ∉ (editEvent mgr eventName i).2 ∧
      Out.text "\nNo events to edit.\n" ∉ (editEvent mgr eventName i).2) := by
  constructor
  · intro hno
    refine ⟨editEvent_of_no_match mgr eventName i hno, fun hne => ?_, fun hemp => ?_⟩
    · have hne2 : mgr.events.isEmpty = false := by simpa using hne
      simp only [editEvent, hne2, Bool.false_eq_true, if_false,
        editLoop_of_no_match eventName i _ hno]
    · simp [editEvent, hemp]
  · rintro ⟨x, hx, hxn⟩
    rcases first_match_split eventName mgr.events with h | ⟨pre, e, post, hl, hpre, he⟩
    · exact absurd hxn (h x hx)
    · obtain ⟨l⟩ := mgr
      simp only at hl
      subst hl
      rw [editEvent_of_first_match eventName i pre e post hpre he]
      simp only [List.mem_append, List.mem_cons, List.mem_singleton, List.not_mem_nil,
        or_false, not_or]
      refine ⟨⟨⟨?_, ?_⟩, ?_⟩, ⟨?_, ?_⟩, ?_⟩
      · intro h
        have h2 := congrArg (fun o => match o with
          | Out.text s => s.data[0]?
          | Out.display _ => none) h
        simp [String.data_append] at h2
      · intro h
        have h2 := congrArg (fun o => match o with
          | Out.text s => s.data[1]?
          | Out.display _ => none) h
        simp [String.data_append] at h2
      · intro h
        obtain ⟨s, hs, hc⟩ := editFound_output_shape e i _ h
        have hs2 : "Event with name '" ++ eventName ++ "' not found.\n" = s := by
          simpa using hs
        rw [← hs2] at hc
        simp [String.data_append] at hc
      · intro h
        have h2 := congrArg (fun o => match o with
          | Out.text s => s.data[1]?
          | Out.display _ => none) h
        simp at h2
      · intro h
        have h2 := congrArg (fun o => match o with
          | Out.text s => s.data[0]?
          | Out.display _ => none) h
        simp at h2
      · intro h
        obtain ⟨s, hs, hc⟩ := editFound_output_shape e i _ h
        have hs2 : "\nNo events to edit.\n" = s := by
          simpa using hs
        rw [← hs2] at hc
        simp at hc

/-! ## Searching (C12, C13, C19, C20) -/

theorem startsWith_iff (query s : List Char) :
    startsWith query s = true ↔ ∃ after, s = query ++ after := by
  induction query generalizing s with
  | nil => simp [startsWith]
  | cons a rest ih =>
    cases s with
    | nil => simp [startsWith]
    | cons b s2 =>
      simp only [startsWith, Bool.and_eq_true, decide_eq_true_eq, ih, List.cons_append,
        List.cons.injEq]
      constructor
      · rintro ⟨rfl, after, rfl⟩
        exact ⟨after, rfl, rfl⟩
      · rintro ⟨after, rfl, rfl⟩
        exact ⟨rfl, after, rfl⟩

theorem findFrom_isSome_iff (query s : List Char) (pos : Nat) :
    (findFrom query s pos).isSome = true ↔ ∃ before after, s = before ++ query ++ after := by
  induction s generalizing pos with
  | nil =>
    unfold findFrom
    by_cases h : startsWith query [] = true
    · simp only [h, if_true, Option.isSome_some, true_iff]
      obtain ⟨after, ha⟩ := (startsWith_iff _ _).1 h
      exact ⟨[], after, by simpa using ha⟩
    · simp only [h, Bool.false_eq_true, if_false, Option.isSome_none, false_iff]
      rintro ⟨before, after, hb⟩
      apply h
      rw [startsWith_iff]
      have h1 : before = [] ∧ query = [] ∧ after = [] := by
        simpa [List.append_eq_nil] using hb.symm
      exact ⟨[], by simp [h1.2.1]⟩
  | cons c cs ih =>
    unfold findFrom
    by_cases h : startsWith query (c :: cs) = true
    · simp only [h, if_true, Option.isSome_some, true_iff]
      obtain ⟨after, ha⟩ := (startsWith_iff _ _).1 h
      exact ⟨[], after, by simpa using ha⟩
    · simp only [h, Bool.false_eq_true, if_false, ih]
      constructor
      · rintro ⟨before, after, hb⟩
        exact ⟨c :: before, after, by simp [hb]⟩
      · rintro ⟨before, after, hb⟩
        cases before with
        | nil =>
          exact absurd ((startsWith_iff _ _).2 ⟨after, by simpa using hb⟩) h
        | cons b before2 =>
          simp only [List.cons_append, List.cons.injEq] at hb
          exact ⟨before2, after, hb.2⟩

theorem find_isSome_iff (s query : String) :
    (find s query).isSome = true ↔ IsSubstring query s :=
  findFrom_isSome_iff query.data s.data 0

theorem matchesQuery_iff (e : Event) (query : String) :
    matchesQuery e query = true ↔ QueryInEvent query e := by
  simp only [matchesQuery, Bool.or_eq_true, find_isSome_iff, QueryInEvent, or_assoc]

theorem searchLoop_displayed (query : String) (l : List Event) (found : Bool) :
    displayed (searchLoop query l found).1 = l.filter (fun e => matchesQuery e query) := by
  induction l generalizing found with
  | nil => rfl
  | cons e rest ih =>
    by_cases h : matchesQuery e query = true
    · simp [searchLoop, h, displayed, ih]
    · simp [searchLoop, h, ih]

theorem searchLoop_found (query : String) (l : List Event) (found : Bool) :
    (searchLoop query l found).2 = (found || l.any (fun e => matchesQuery e query)) := by
  induction l generalizing found with
  | nil => simp [searchLoop]
  | cons e rest ih =>
    by_cases h : matchesQuery e query = true
    · simp [searchLoop, h, ih]
    · simp [searchLoop, h, ih]

theorem searchLoop_output (query : String) (l : List Event) (found : Bool) :
    (searchLoop query l found).1 = (l.filter (fun e => matchesQuery e query)).map Out.display := by
  induction l generalizing found with
  | nil => rfl
  | cons e rest ih =>
    by_cases h : matchesQuery e query = true
    · simp [searchLoop, h, ih]
    · simp [searchLoop, h, ih]

theorem displayed_append (a b : List Out) : displayed (a ++ b) = displayed a ++ displayed b := by
  induction a with
  | nil => rfl
  | cons o rest ih =>
    cases o with
    | text s => simpa [displayed] using ih
    | display e => simpa [displayed] using ih

theorem searchEvent_store (mgr : EventManager) (query : String) :
    (searchEvent mgr query).1 = mgr := by
  unfold searchEvent
  split_ifs <;> rfl

theorem searchEvent_displayed (mgr : EventManager) (query : String) :
    displayed (searchEvent mgr query).2
      = mgr.events.filter (fun e => matchesQuery e query) := by
  unfold searchEvent
  split_ifs with h
  · have : mgr.events = [] := by simpa using h
    simp [displayed, this]
  · simp only
    split_ifs <;> simp [displayed_append, displayed, searchLoop_displayed]

theorem searchEvent_report_iff (mgr : EventManager) (query : String)
    (hne : mgr.events ≠ []) :
    Out.text ("No events found matching '" ++ query ++ "'.\n") ∈ (searchEvent mgr query).2
      ↔ ∀ e ∈ mgr.events, matchesQuery e query = false := by
  have hne2 : mgr.events.isEmpty = false := by simpa using hne
  have h1 : Out.text ("No events found matching '" ++ query ++ "'.\n")
      ≠ Out.text "\n--- Search Event ---\n" := by
    intro h
    have h2 := congrArg (fun o => match o with
      | Out.text s => s.data[0]?
      | Out.display _ => none) h
    simp [String.data_append] at h2
  have h3 : Out.text ("No events found matching '" ++ query ++ "'.\n")
      ≠ Out.text "Enter keyword (event name, description, or date DD/MM/YYYY): " := by
    intro h
    have h2 := congrArg (fun o => match o with
      | Out.text s => s.data[0]?
      | Out.display _ => none) h
    simp [String.data_append] at h2
  simp only [searchEvent, hne2, Bool.false_eq_true, if_false, searchLoop_output,
    searchLoop_found, Bool.false_or, List.mem_append, List.mem_cons, List.mem_singleton,
    List.not_mem_nil, or_false, h1, h3, false_or, List.mem_map, and_false, exists_false]
  by_cases hany : (mgr.events.any fun e => matchesQuery e query) = true
  · simp only [hany, Bool.not_true, Bool.false_eq_true, if_false, List.not_mem_nil]
    constructor
    · rintro (⟨a, _, h⟩ | h)
      · exact Out.noConfusion h
      · exact h.elim
    · intro hall
      obtain ⟨e, he, hm⟩ := List.any_eq_true.1 hany
      rw [hall e he] at hm
      exact Bool.noConfusion hm
  · have hall : ∀ e ∈ mgr.events, matchesQuery e query = false := by
      intro e he
      by_contra hm
      exact hany (List.any_eq_true.2 ⟨e, he, by simpa using hm⟩)
    have hf : (mgr.events.any fun e => matchesQuery e query) = false := by simpa using hany
    simp only [hf, Bool.not_false, if_true, List.mem_singleton]
    exact ⟨fun _ => hall, fun _ => Or.inr trivial⟩

/-- C12: `searchEvent` shows exactly the events of the store for which the
query is a contiguous, case-sensitive substring of the name, of the description
or of the rendered date, in store order and with their multiplicity: the
events shown are the store filtered by the search condition, and the search
condition holds exactly for these events. In particular an event one of whose
three fields contains the query is shown, and the store is left as it was. -/
theorem C12_searchEvent_returns_matches (mgr : EventManager) (query : String) :
    displayed (searchEvent mgr query).2
      = mgr.events.filter (fun e => matchesQuery e query) ∧
    (∀ e : Event, matchesQuery e query = true ↔
      (IsSubstring query e.name ∨ IsSubstring query e.description
        ∨ IsSubstring query e.date.toString)) ∧
    (∀ e ∈ mgr.events,
      (IsSubstring query e.name ∨ IsSubstring query e.description
        ∨ IsSubstring query e.date.toString) →
      e ∈ displayed (searchEvent mgr query).2 ∧
      (displayed (searchEvent mgr query).2).count e = mgr.events.count e) ∧
    (∀ e ∈ displayed (searchEvent mgr query).2, e ∈ mgr.events ∧
      (IsSubstring query e.name ∨ IsSubstring query e.description
        ∨ IsSubstring query e.date.toString)) ∧
    (displayed (searchEvent mgr query).2).Sublist mgr.events ∧
    (searchEvent mgr query).1 = mgr := by
  rw [searchEvent_displayed]
  refine ⟨rfl, fun e => matchesQuery_iff e query, fun e he hq => ?_, fun e he => ?_,
    List.filter_sublist _, searchEvent_store mgr query⟩
  · have hm : matchesQuery e query = true := (matchesQuery_iff e query).2 hq
    exact ⟨List.mem_filter.2 ⟨he, hm⟩, List.count_filter hm⟩
  · have h := List.mem_filter.1 he
    exact ⟨h.1, (matchesQuery_iff e query).1 h.2⟩

/-- C13: `searchEvent` reports that nothing was found exactly when it shows no
event. On a store that holds events the line `No events found matching '...'.`
is printed if and only if the query is a substring of none of the three fields
of any event, and if and only if no event is shown. On the empty store the
output is the line `No events to search.` for every query, and no event is
shown. The store is unchanged in every case. -/
theorem C13_searchEvent_not_found (mgr : EventManager) (query : String) :
    (mgr.events ≠ [] →
      (Out.text ("No events found matching '" ++ query ++ "'.\n") ∈ (searchEvent mgr query).2
        ↔ ∀ e ∈ mgr.events, ¬ (IsSubstring query e.name ∨ IsSubstring query e.description
            ∨ IsSubstring query e.date.toString)) ∧
      (Out.text ("No events found matching '" ++ query ++ "'.\n") ∈ (searchEvent mgr query).2
        ↔ displayed (searchEvent mgr query).2 = [])) ∧
    (mgr.events = [] →
      (searchEvent mgr query).2 = [Out.text "\nNo events to search.\n"] ∧
      displayed (searchEvent mgr query).2 = []) ∧
    (searchEvent mgr query).1 = mgr := by
  refine ⟨fun hne => ?_, fun hemp => ?_, searchEvent_store mgr query⟩
  · have hall : (∀ e ∈ mgr.events, matchesQuery e query = false) ↔
        ∀ e ∈ mgr.events, ¬ (IsSubstring query e.name ∨ IsSubstring query e.description
            ∨ IsSubstring query e.date.toString) := by
      constructor
      · intro h e he hq
        have := (matchesQuery_iff e query).2 hq
        rw [h e he] at this
        exact Bool.noConfusion this
      · intro h e he
        by_contra hm
        exact h e he ((matchesQuery_iff e query).1 (by simpa using hm))
    rw [searchEvent_report_iff mgr query hne, searchEvent_displayed]
    refine ⟨hall, ?_⟩
    rw [List.filter_eq_nil_iff]
    constructor
    · intro h e he
      simp [h e he]
    · intro h e he
      simpa using h e he
  · have hd : searchEvent mgr query = (mgr, [Out.text "\nNo events to search.\n"]) := by
      simp [searchEvent, hemp]
    rw [hd]
    exact ⟨rfl, rfl⟩

theorem matchesQuery_empty (e : Event) : matchesQuery e "" = true := by
  rw [matchesQuery_iff]
  exact Or.inl ⟨[], e.name.data, rfl⟩

/-- C19: on a store that holds events, searching for the empty string shows
every event of the store, in store order, and the not-found line is not
printed: the empty string is a substring of every name. -/
theorem C19_searchEvent_empty_query (mgr : EventManager) (hne : mgr.events ≠ []) :
    displayed (searchEvent mgr "").2 = mgr.events ∧
    Out.text ("No events found matching '" ++ "" ++ "'.\n") ∉ (searchEvent mgr "").2 ∧
    (∀ e : Event, IsSubstring "" e.name) := by
  refine ⟨?_, ?_, fun e => ⟨[], e.name.data, rfl⟩⟩
  · rw [searchEvent_displayed, List.filter_eq_self]
    exact fun e _ => matchesQuery_empty e
  · rw [searchEvent_report_iff mgr "" hne]
    intro h
    cases hl : mgr.events with
    | nil => exact hne hl
    | cons e rest =>
      have := h e (by rw [hl]; exact List.mem_cons_self _ _)
      rw [matchesQuery_empty] at this
      exact Bool.noConfusion this

/-- The empty query on the two-event store of the search examples shows both
events. -/
theorem C19_searchEvent_empty_query_witness :
    searchStore.events ≠ [] ∧
    displayed (searchEvent searchStore "").2 = searchStore.events ∧
    Out.text ("No events found matching '" ++ "" ++ "'.\n") ∉ (searchEvent searchStore "").2 :=
  ⟨by decide, (C19_searchEvent_empty_query searchStore (by decide)).1,
    (C19_searchEvent_empty_query searchStore (by decide)).2.1⟩

/-- C20: searching by a rendered date is a substring match, not a comparison of
dates. There is a store with two events of different in-range dates, 1/1/2000
and 11/1/2000, whose names and descriptions do not contain the query, such that
the search for the full rendered date of the first event, `1/1/2000`, shows
both events. -/
theorem C20_search_by_date_is_substring_match :
    ∃ (mgr : EventManager) (e1 e2 : Event),
      mgr.events = [e1, e2] ∧ e1.date ≠ e2.date ∧
      e1.date = { day := 1, month := 1, year := 2000 } ∧
      e2.date = { day := 11, month := 1, year := 2000 } ∧
      dateInRange e1.date.day e1.date.month e1.date.year = true ∧
      dateInRange e2.date.day e2.date.month e2.date.year = true ∧
      e1.date.toString = "1/1/2000" ∧
      find e1.name e1.date.toString = none ∧ find e1.description e1.date.toString = none ∧
      find e2.name e1.date.toString = none ∧ find e2.description e1.date.toString = none ∧
      find e2.date.toString e1.date.toString = some 1 ∧
      displayed (searchEvent mgr e1.date.toString).2 = [e1, e2] :=
  ⟨searchStore, _, _, rfl, by decide, rfl, rfl, by decide, by decide, by decide, by decide,
    by decide, by decide, by decide, by decide, by decide⟩

/-! ## The orderings (C14, C15) -/

theorem Time.timeLt_irrefl (a : Time) : a.lt a = false := by
  rw [Bool.eq_false_iff, Ne, Time.timeLt_iff]; omega

theorem Event.eventLt_irrefl (a : Event) : a.lt a = false := by
  rw [Bool.eq_false_iff, Ne, Event.eventLt_iff]
  rintro (h | ⟨_, h⟩)
  · rw [Date.dateLt_irrefl] at h; exact Bool.noConfusion h
  · rw [Time.timeLt_irrefl] at h; exact Bool.noConfusion h

theorem Event.eventLt_trans (a b c : Event) (hab : a.lt b = true) (hbc : b.lt c = true) :
    a.lt c = true := by
  rcases Event.eventLt_cotrans b a c hbc with h | h
  · rw [Event.eventLt_asymm a b hab] at h; exact Bool.noConfusion h
  · exact h

/-- C14: `Event::operator<` is the lexicographic order on (date, time), with
`Time::operator<` comparing the hour and then the minute. It is a strict weak
ordering on all events: irreflexive, transitive, and being incomparable is
transitive. The name and the description take no part: the result depends on
the dates and times only, and of two events with equal date and equal time
neither is less than the other. -/
theorem C14_event_lt_strict_weak_order :
    (∀ a b : Event, a.lt b = true ↔
      a.date.lt b.date = true ∨ (a.date = b.date ∧ a.time.lt b.time = true)) ∧
    (∀ a b : Time, a.lt b = true ↔
      a.hour < b.hour ∨ (a.hour = b.hour ∧ a.minute < b.minute)) ∧
    (∀ a : Event, a.lt a = false) ∧
    (∀ a b c : Event, a.lt b = true → b.lt c = true → a.lt c = true) ∧
    (∀ a b c : Event, a.lt b = false → b.lt a = false → b.lt c = false → c.lt b = false →
      a.lt c = false ∧ c.lt a = false) ∧
    (∀ a b : Event, a.date = b.date → a.time = b.time → a.lt b = false ∧ b.lt a = false) ∧
    (∀ a b a2 b2 : Event, a.date = a2.date → a.time = a2.time → b.date = b2.date →
      b.time = b2.time → a.lt b = a2.lt b2) := by
  refine ⟨Event.eventLt_iff, Time.timeLt_iff, Event.eventLt_irrefl, Event.eventLt_trans,
    fun a b c h1 h2 h3 h4 => ?_, fun a b hd ht => ?_, fun a b a2 b2 h1 h2 h3 h4 => ?_⟩
  · exact ⟨Event.eventLt_negTrans c b a h3 h1, Event.eventLt_negTrans a b c h2 h4⟩
  · have h : ∀ x y : Event, x.date = y.date → x.time = y.time → x.lt y = false := by
      intro x y hxd hxt
      rw [Bool.eq_false_iff, Ne, Event.eventLt_iff, hxd, hxt, Date.dateLt_irrefl,
        Time.timeLt_irrefl]
      simp
    exact ⟨h a b hd ht, h b a hd.symm ht.symm⟩
  · simp only [Event.lt, h1, h2, h3, h4]

/-- Two events with the same date and time and different names and
descriptions: neither is less than the other. -/
theorem C14_event_lt_witness :
    exampleA.date = { exampleA with name := "Z", description := "other" }.date ∧
    exampleA.time = { exampleA with name := "Z", description := "other" }.time ∧
    exampleA.lt { exampleA with name := "Z", description := "other" } = false ∧
    Event.lt { exampleA with name := "Z", description := "other" } exampleA = false :=
  ⟨rfl, rfl, C14_event_lt_strict_weak_order.2.2.2.2.2.1 _ _ rfl rfl⟩

/-- C15: `Date::operator<` compares the year, then the month, then the day, for
all integer field values. It is irreflexive and transitive, `operator==` is
equality of all three fields, and of `a < b`, `a == b`, `b < a` exactly one
holds for every two dates. -/
theorem C15_date_lt_strict_total_order :
    (∀ a b : Date, a.lt b = true ↔
      a.year < b.year ∨ (a.year = b.year ∧
        (a.month < b.month ∨ (a.month = b.month ∧ a.day < b.day)))) ∧
    (∀ a b : Date, a.eq b = true ↔
      (a.day = b.day ∧ a.month = b.month ∧ a.year = b.year)) ∧
    (∀ a : Date, a.lt a = false) ∧
    (∀ a b c : Date, a.lt b = true → b.lt c = true → a.lt c = true) ∧
    (∀ a b : Date,
      (a.lt b = true ∧ a.eq b = false ∧ b.lt a = false) ∨
      (a.lt b = false ∧ a.eq b = true ∧ b.lt a = false) ∨
      (a.lt b = false ∧ a.eq b = false ∧ b.lt a = true)) := by
  refine ⟨Date.dateLt_iff, fun a b => ?_, Date.dateLt_irrefl, fun a b c hab hbc => ?_,
    fun a b => ?_⟩
  · simp only [Date.eq, Bool.and_eq_true, decide_eq_true_eq, and_assoc]
  · rcases Date.dateLt_cotrans b a c hbc with h | h
    · rw [Date.dateLt_asymm a b hab] at h; exact Bool.noConfusion h
    · exact h
  · by_cases h1 : a.lt b = true
    · refine Or.inl ⟨h1, ?_, Date.dateLt_asymm a b h1⟩
      rw [Bool.eq_false_iff, Ne, Date.dateEq_iff]
      rintro rfl
      rw [Date.dateLt_irrefl] at h1
      exact Bool.noConfusion h1
    · have h1f : a.lt b = false := by simpa using h1
      by_cases h2 : b.lt a = true
      · refine Or.inr (Or.inr ⟨h1f, ?_, h2⟩)
        rw [Bool.eq_false_iff, Ne, Date.dateEq_iff]
        rintro rfl
        rw [Date.dateLt_irrefl] at h2
        exact Bool.noConfusion h2
      · have h2f : b.lt a = false := by simpa using h2
        exact Or.inr (Or.inl ⟨h1f, (Date.dateEq_iff a b).2 (Date.dateEq_of_not_lt a b h1f h2f),
          h2f⟩)

/-- The dates 30/2/2024 and 1/3/2024, and dates outside any range: the order
follows the year, then the month, then the day. -/
theorem C15_date_lt_witness :
    Date.lt { day := 30, month := 2, year := 2024 } { day := 1, month := 3, year := 2024 }
      = true ∧
    Date.lt { day := 1, month := 3, year := 2024 } { day := 31, month := 12, year := -5 }
      = false ∧
    Date.lt { day := 30, month := 2, year := 2024 } { day := 31, month := 12, year := 2025 }
      = true :=
  ⟨by decide, by decide,
    C15_date_lt_strict_total_order.2.2.2.1 { day := 30, month := 2, year := 2024 }
      { day := 1, month := 3, year := 2024 } { day := 31, month := 12, year := 2025 }
      (by decide) (by decide)⟩

/-! ## Rendering (C16) -/

theorem digitChar_mod_ten (n : Nat) : Nat.digitChar (n % 10) = digit n := by
  have h : n % 10 < 10 := Nat.mod_lt _ (by decide)
  unfold digit
  generalize n % 10 = k at h
  interval_cases k <;> rfl

theorem toDigitsCore_eq_decimal (fuel n : Nat) (ds : List Char) (h : n < fuel) :
    Nat.toDigitsCore 10 fuel n ds = decimal n ++ ds := by
  induction fuel generalizing n ds with
  | zero => omega
  | succ f ih =>
    rw [decimal]
    by_cases h10 : n < 10
    · have hz : n / 10 = 0 := by omega
      simp [Nat.toDigitsCore, hz, h10, digitChar_mod_ten]
    · have hz : n / 10 ≠ 0 := by omega
      have hlt : n / 10 < f := by omega
      simp [Nat.toDigitsCore, hz, h10, digitChar_mod_ten, ih (n / 10) _ hlt]

theorem to_string_ofNat (n : Nat) : to_string (n : Int) = String.mk (decimal n) := by
  show String.mk (Nat.toDigits 10 n) = String.mk (decimal n)
  rw [Nat.toDigits, toDigitsCore_eq_decimal _ _ _ (Nat.lt_succ_self n), List.append_nil]

theorem to_string_eq_decimalInt (n : Int) : to_string n = decimalInt n := by
  cases n with
  | ofNat m =>
    have h : ¬ ((Int.ofNat m) < 0) := by simp
    rw [decimalInt, if_neg h]
    exact to_string_ofNat m
  | negSucc m =>
    have h : Int.negSucc m < 0 := Int.negSucc_lt_zero m
    rw [decimalInt, if_pos h]
    show "-" ++ String.mk (Nat.toDigits 10 (m + 1)) = _
    rw [Nat.toDigits, toDigitsCore_eq_decimal _ _ _ (Nat.lt_succ_self _), List.append_nil]
    rfl

theorem decimal_of_lt_ten (n : Nat) (h : n < 10) : decimal n = [digit n] := by
  rw [decimal, if_pos h]

theorem decimal_of_lt_hundred (n : Nat) (h10 : ¬ n < 10) (h : n < 100) :
    decimal n = [digit (n / 10), digit n] := by
  rw [decimal, if_neg h10, decimal_of_lt_ten (n / 10) (by omega)]
  rfl

/-- The padding step of `Time::toString` on a component below 100. -/
theorem pad_to_string (n : Int) (h0 : 0 ≤ n) (h : n < 100) :
    (if (to_string n).length = 1 then "0" ++ to_string n else to_string n)
      = String.mk (twoDigits n) := by
  obtain ⟨k, rfl⟩ := Int.eq_ofNat_of_zero_le h0
  have hk : k < 100 := by omega
  rw [to_string_ofNat]
  by_cases h10 : k < 10
  · have hz : k / 10 = 0 := by omega
    rw [decimal_of_lt_ten k h10]
    simp only [twoDigits, Int.toNat_ofNat, hz]
    rfl
  · rw [decimal_of_lt_hundred k h10 hk]
    simp only [twoDigits, Int.toNat_ofNat]
    rfl

/-- C16: the fixed formats of the rendering. For a time with hour 0..23 and
minute 0..59, `Time::toString` is exactly five characters: the two digits of
the hour, zero-padded, a colon, and the two digits of the minute, zero-padded.
For every date, `Date::toString` is the decimal numeral of the day, a slash,
the numeral of the month, a slash, and the numeral of the year, none of them
padded. The default date renders as `1/1/2000`, the default time as `00:00`. -/
theorem C16_rendering_formats :
    (∀ a : Time, 0 ≤ a.hour → a.hour ≤ 23 → 0 ≤ a.minute → a.minute ≤ 59 →
      a.toString.length = 5 ∧
      a.toString.data = twoDigits a.hour ++ ':' :: twoDigits a.minute) ∧
    (∀ a : Date, a.toString
      = decimalInt a.day ++ "/" ++ decimalInt a.month ++ "/" ++ decimalInt a.year) ∧
    Date.default.toString = "1/1/2000" ∧ Time.default.toString = "00:00" := by
  refine ⟨fun a h0 h23 m0 m59 => ?_, fun a => ?_, by decide, by decide⟩
  · have ht : a.toString
        = String.mk (twoDigits a.hour) ++ ":" ++ String.mk (twoDigits a.minute) := by
      rw [← pad_to_string a.hour h0 (by omega), ← pad_to_string a.minute m0 (by omega)]
      rfl
    rw [ht]
    exact ⟨rfl, rfl⟩
  · simp only [Date.toString, to_string_eq_decimalInt]

/-- The time 09:05 renders as `09:05`. -/
theorem C16_rendering_witness :
    (Time.toString { hour := 9, minute := 5 }).length = 5 ∧
    (Time.toString { hour := 9, minute := 5 }).data = ['0', '9', ':', '0', '5'] :=
  C16_rendering_formats.1 { hour := 9, minute := 5 } (by decide) (by decide) (by decide)
    (by decide)

/-! ## Reminders (C17) -/

theorem reminderLoop_eq (l : List Event) (count : Nat) :
    reminderLoop l count = (l.map Out.display, count + l.length) := by
  induction l generalizing count with
  | nil => rfl
  | cons e rest ih =>
    simp only [reminderLoop, ih, List.map_cons, List.length_cons]
    congr 1
    omega

theorem checkReminders_events (mgr : EventManager) :
    (checkReminders mgr).1.events = stdSort mgr.events := by
  unfold checkReminders
  split_ifs with h
  · have : mgr.events = [] := by simpa using h
    simp [this, stdSort]
  · rfl

theorem checkReminders_displayed (mgr : EventManager) :
    displayed (checkReminders mgr).2 = stdSort mgr.events := by
  unfold checkReminders
  split_ifs with h
  · have : mgr.events = [] := by simpa using h
    simp [displayed, this, stdSort]
  · simp only [reminderLoop_eq]
    split_ifs <;> simp [displayed_append, displayed, displayed_map_display]

theorem viewEvents_displayed (mgr : EventManager) :
    displayed (viewEvents mgr).2 = stdSort mgr.events := by
  unfold viewEvents
  split_ifs with h
  · have : mgr.events = [] := by simpa using h
    simp [displayed, this, stdSort]
  · simp [displayed, displayed_map_display]

/-- C17: `checkReminders` does what `viewEvents` does. For every store both
leave the same store behind and show the same sequence of events; the events
shown are all the events of the resulting store, which is a permutation of the
old one, so no event is filtered out. On the empty store both show no event and
leave the store empty. -/
theorem C17_checkReminders_equals_viewEvents (mgr : EventManager) :
    (checkReminders mgr).1 = (viewEvents mgr).1 ∧
    displayed (checkReminders mgr).2 = displayed (viewEvents mgr).2 ∧
    displayed (checkReminders mgr).2 = (checkReminders mgr).1.events ∧
    (checkReminders mgr).1.events.Perm mgr.events ∧
    (mgr.events = [] →
      (checkReminders mgr).1.events = [] ∧ displayed (checkReminders mgr).2 = [] ∧
      (viewEvents mgr).1.events = [] ∧ displayed (viewEvents mgr).2 = []) := by
  have h1 : (checkReminders mgr).1 = (viewEvents mgr).1 := by
    have h := (checkReminders_events mgr).trans (viewEvents_events mgr).symm
    cases hc : (checkReminders mgr).1
    cases hv : (viewEvents mgr).1
    rw [hc, hv] at h
    simpa using h
  refine ⟨h1, ?_, ?_, ?_, fun hemp => ?_⟩
  · rw [checkReminders_displayed, viewEvents_displayed]
  · rw [checkReminders_displayed, checkReminders_events]
  · rw [checkReminders_events]; exact stdSort_perm _
  · rw [checkReminders_events, checkReminders_displayed, viewEvents_events,
      viewEvents_displayed, hemp]
    exact ⟨rfl, rfl, rfl, rfl⟩

/-- On the two events of the scenario both operations leave Release in front of
Standup and show the two events in this order. -/
theorem C17_checkReminders_witness :
    (checkReminders (addAll EventManager.empty [scenarioStandup, scenarioRelease])).1
      = (viewEvents (addAll EventManager.empty [scenarioStandup, scenarioRelease])).1 ∧
    (displayed (checkReminders
      (addAll EventManager.empty [scenarioStandup, scenarioRelease])).2).map Event.name
      = ["Release", "Standup"] :=
  ⟨(C17_checkReminders_equals_viewEvents _).1, by decide⟩

/-! ## The range invariant (C18) -/

theorem addEvent_inRange (mgr : EventManager) (i : AddInput)
    (h : ∀ e ∈ mgr.events, EventInRange e) :
    ∀ e ∈ (addEvent mgr i).1.events, EventInRange e := by
  intro e he
  simp only [addEvent, List.mem_append, List.mem_singleton] at he
  rcases he with he | rfl
  · exact h e he
  · simp only [EventInRange, addDate, addTime]
    split_ifs <;> simp only <;> omega

theorem editDate_inRange (e : Event) (s : String) (h : EventInRange e) :
    EventInRange (editDate e s).1 := by
  unfold editDate
  split_ifs
  · split
    · split_ifs with hr
      · simp only [EventInRange] at h ⊢
        omega
      · exact h
    · exact h
  · exact h

theorem editTime_inRange (e : Event) (s : String) (h : EventInRange e) :
    EventInRange (editTime e s).1 := by
  unfold editTime
  split_ifs
  · split
    · split_ifs with hr
      · simp only [EventInRange] at h ⊢
        omega
      · exact h
    · exact h
  · exact h

theorem editFound_inRange (e : Event) (i : EditInput) (h : EventInRange e) :
    EventInRange (editFound e i).1 := by
  have hd := editDate_inRange e i.date_input_str h
  have ht := editTime_inRange e i.time_input_str h
  simp only [EventInRange, editFound_date, editFound_time] at hd ht ⊢
  omega

theorem editEvent_inRange (mgr : EventManager) (eventName : String) (i : EditInput)
    (h : ∀ e ∈ mgr.events, EventInRange e) :
    ∀ e ∈ (editEvent mgr eventName i).1.events, EventInRange e := by
  rcases first_match_split eventName mgr.events with hno | ⟨pre, x, post, hl, hpre, hx⟩
  · rw [editEvent_of_no_match mgr eventName i hno]
    exact h
  · obtain ⟨l⟩ := mgr
    simp only at hl h
    subst hl
    rw [editEvent_of_first_match eventName i pre x post hpre hx]
    intro e he
    simp only [List.mem_append, List.mem_cons] at he
    rcases he with he | rfl | he
    · exact h e (by simp [he])
    · exact editFound_inRange x i (h x (by simp))
    · exact h e (by simp [he])

theorem step_inRange (mgr : EventManager) (op : Op)
    (h : ∀ e ∈ mgr.events, EventInRange e) :
    ∀ e ∈ (step mgr op).1.events, EventInRange e := by
  cases op with
  | add i => exact addEvent_inRange mgr i h
  | view =>
    intro e he
    simp only [step, viewEvents_events] at he
    exact h e ((stdSort_perm _).mem_iff.1 he)
  | search query =>
    simp only [step, searchEvent_store]
    exact h
  | edit eventName i => exact editEvent_inRange mgr eventName i h
  | delete eventName =>
    intro e he
    simp only [step, deleteEvent_events] at he
    exact h e (List.mem_filter.1 he).1
  | remind =>
    intro e he
    simp only [step, checkReminders_events] at he
    exact h e ((stdSort_perm _).mem_iff.1 he)

theorem run_inRange (ops : List Op) (mgr : EventManager)
    (h : ∀ e ∈ mgr.events, EventInRange e) :
    ∀ e ∈ (run mgr ops).events, EventInRange e := by
  induction ops generalizing mgr with
  | nil => exact h
  | cons op rest ih => exact ih _ (step_inRange mgr op h)

/-- C18: the range invariant of the store. In every store reached from the empty
store by a sequence of add, list, search, edit, delete and reminder operations
with arbitrary inputs, every event has day 1..31, month 1..12, year 1900..2100,
hour 0..23 and minute 0..59. -/
theorem C18_store_range_invariant (ops : List Op) (e : Event)
    (he : e ∈ (run EventManager.empty ops).events) : EventInRange e :=
  run_inRange ops EventManager.empty (by simp [EventManager.empty]) e he

/-- A run with an add and an edit whose input is out of range: the event left in
the store has the default date and time, which are in range. -/
theorem C18_store_range_invariant_witness :
    (run EventManager.empty exampleRun).events
      = [{ name := "A", date := { day := 1, month := 1, year := 2000 },
           time := { hour := 23, minute := 59 }, description := "d" }] ∧
    EventInRange { name := "A", date := { day := 1, month := 1, year := 2000 },
                   time := { hour := 23, minute := 59 }, description := "d" } :=
  ⟨by decide, C18_store_range_invariant exampleRun _ (by decide)⟩

end EventReminder
